import Mathlib

/-!
Verification of the gokonfi configuration-language implementation.

This file gives a shallow embedding, in Lean 4, of the parts of the
gokonfi interpreter (package `gokonfi`, files `eval.go`, `types.go`,
`builtins.go`, `modules.go`, `scanner.go`, `token/token.go`) needed to
settle the frozen claims, and proves or refutes each claim.

Modelling conventions:
- Go `float64` values are modelled as exact rationals (`ℚ`).  The claims
  settled here are about the algebraic structure of the operations, not
  about rounding, so the idealisation is faithful to what is claimed.
- Go `int64` is modelled as `ℤ`; no settled claim involves 64-bit wraparound.
- Go interface values of type `Val` are a closed sum in the interpreter
  (`valImpl()`), so `Val` below is an inductive type.  `*RecVal` is a
  pointer; record identity is modelled by a `ptr : Nat` field, allocated
  from a counter wherever the Go code calls `NewRec()`.
- `*Typ` values are compared by pointer in Go; the interpreter creates one
  `Typ` object per type id (builtin table plus `defineType` registry), so
  type identity is modelled by structural equality of a `Typ` record
  carrying the id and the unit-multiplier table.
- Fallible Go functions returning `(Val, error)` become functions into
  `Res`; Go runtime panics (which the interpreter never recovers) are a
  third, distinguished outcome `.panic`.
-/

namespace Gokonfi

/-- Outcome of a Go function returning `(T, error)`, with a third case for
an unrecovered Go runtime panic (`log.Fatalf` is treated the same way:
it terminates the process). -/
inductive Res (α : Type) where
  | ok (v : α)
  | err (msg : String)
  | panic (msg : String)
deriving Repr, DecidableEq

/-- Model of `Typ` (types.go).  `id` stands for the Go pointer identity:
the interpreter allocates exactly one `Typ` per type name (builtin table,
`NewUnitType`), so distinct types have distinct ids.  `unitMults` is the
`UnitMults map[string]float64` field; it is non-empty exactly for unit
types (`IsUnit`). -/
structure Typ where
  id : String
  unitMults : List (String × ℚ) := []
deriving Repr, DecidableEq

/-- Model of `(t *Typ) IsUnit()` (types.go): true iff `UnitMults` is non-empty. -/
def Typ.isUnitTyp (t : Typ) : Bool :=
  t.unitMults.length > 0

def builtinTypeBool : Typ := ⟨"bool", []⟩
def builtinTypeInt : Typ := ⟨"int", []⟩
def builtinTypeDouble : Typ := ⟨"double", []⟩
def builtinTypeString : Typ := ⟨"string", []⟩
def builtinTypeNil : Typ := ⟨"nil", []⟩
def builtinTypeRec : Typ := ⟨"rec", []⟩
def builtinTypeList : Typ := ⟨"list", []⟩

/-- Model of `FieldAnnotation` (eval.go): the optional type annotation of a
record field, `T *Typ` and `M float64` (the multiplier, nonzero only for
unit-typed fields). -/
structure FieldAnnotation where
  t : Typ
  m : ℚ
deriving Repr, DecidableEq

/-- Model of the closed sum of `Val` implementations (eval.go).
`rec` carries `ptr`, the allocation identity of the Go `*RecVal` pointer,
plus the `Fields` and `FieldAnnotations` maps as association lists keyed by
field name (unique keys).  Function values (`NativeFuncVal`, `FuncExprVal`)
are not constructed by any operation settled here and are omitted. -/
inductive Val where
  | int (n : ℤ)
  | double (d : ℚ)
  | bool (b : Bool)
  | str (s : String)
  | nil
  | unit (v : ℚ) (f : ℚ) (t : Typ)
  | record (ptr : Nat) (fields : List (String × Val)) (annots : List (String × FieldAnnotation))
  | list (elems : List Val)
  | typed (v : Val) (t : Typ)
deriving Repr

/-- Model of the `Typ()` method family (eval.go lines 441-473). -/
def Val.typOf : Val → Typ
  | .int _ => builtinTypeInt
  | .double _ => builtinTypeDouble
  | .bool _ => builtinTypeBool
  | .str _ => builtinTypeString
  | .nil => builtinTypeNil
  | .unit _ _ t => t
  | .record _ _ _ => builtinTypeRec
  | .list _ => builtinTypeList
  | .typed _ t => t

/-- Model of the `Bool()` truthiness method family (eval.go lines 365-398).
`TypedVal` delegates to the inner value. -/
def Val.toBool : Val → Bool
  | .int n => n != 0
  | .double d => d != 0
  | .unit v _ _ => v != 0
  | .bool b => b
  | .str s => s.length > 0
  | .nil => false
  | .record _ fields _ => fields.length > 0
  | .list elems => elems.length > 0
  | .typed v _ => v.toBool

/-- Model of `UnitVal.WithF` (eval.go lines 301-306): rescale a unit value
to multiplier `f2`, leaving it unchanged when the multiplier already matches. -/
def unitWithF (v f : ℚ) (t : Typ) (f2 : ℚ) : Val :=
  if f = f2 then .unit v f t else .unit (v * (f / f2)) f2 t

/-- Model of `plus` (eval.go lines 477-507).  Each arm of the Go type
switch that falls through ends at the shared "incompatible types" error. -/
def plus : Val → Val → Res Val
  | .int u, .int v => .ok (.int (u + v))
  | .str u, .str v => .ok (.str (u ++ v))
  | .double u, .double v => .ok (.double (u + v))
  | .unit uv uf ut, .unit vv vf vt =>
    if ut ≠ vt then .err "incompatible unit types for +"
    else if uf = vf then .ok (.unit (uv + vv) uf ut)
    else if uf < vf then .ok (.unit (uv + vv * (vf / uf)) uf ut)
    else .ok (.unit (uv * (uf / vf) + vv) vf vt)
  | _, _ => .err "incompatible types for +"

/-- Model of `minus` (eval.go lines 509-534). -/
def minus : Val → Val → Res Val
  | .int u, .int v => .ok (.int (u - v))
  | .double u, .double v => .ok (.double (u - v))
  | .unit uv uf ut, .unit vv vf vt =>
    if ut ≠ vt then .err "incompatible unit types for -"
    else if uf = vf then .ok (.unit (uv - vv) uf ut)
    else if uf < vf then .ok (.unit (uv - vv * (vf / uf)) uf ut)
    else .ok (.unit (uv * (uf / vf) - vv) vf vt)
  | _, _ => .err "incompatible types for -"

/-- Model of `times` (eval.go lines 536-561). -/
def times : Val → Val → Res Val
  | .int u, .int v => .ok (.int (u * v))
  | .int u, .unit vv vf vt => .ok (.unit ((u : ℚ) * vv) vf vt)
  | .double u, .double v => .ok (.double (u * v))
  | .double u, .unit vv vf vt => .ok (.unit (u * vv) vf vt)
  | .unit uv uf ut, .int v => .ok (.unit (uv * (v : ℚ)) uf ut)
  | .unit uv uf ut, .double v => .ok (.unit (uv * v) uf ut)
  | _, _ => .err "incompatible types for *"

/-- Model of `div` (eval.go lines 563-582).  The int/int arm executes the
Go expression `u / v` with no zero check: when `v == 0` this is a Go
runtime panic ("integer divide by zero"), not a returned error.  Nonzero
Go `int64` division truncates toward zero (`Int.tdiv`).  Double and
unit/scalar division by zero is IEEE (non-panicking) in Go and yields
infinities/NaN; it is idealised here as rational division (no claim
settled here touches that case). -/
def div : Val → Val → Res Val
  | .int u, .int v =>
    if v = 0 then .panic "runtime error: integer divide by zero"
    else .ok (.int (Int.tdiv u v))
  | .double u, .double v => .ok (.double (u / v))
  | .unit uv uf ut, .int v => .ok (.unit (uv / (v : ℚ)) uf ut)
  | .unit uv uf ut, .double v => .ok (.unit (uv / v) uf ut)
  | _, _ => .err "incompatible types for /"

/-- Model of `modulo` (eval.go lines 584-591); `u % v` with `v == 0` is
the same Go runtime panic as division. -/
def modulo : Val → Val → Res Val
  | .int u, .int v =>
    if v = 0 then .panic "runtime error: integer divide by zero"
    else .ok (.int (Int.tmod u v))
  | _, _ => .err "incompatible types for %"

/-- Model of `logicalAnd` (eval.go lines 593-595). -/
def logicalAnd (x y : Val) : Res Val :=
  .ok (.bool (x.toBool && y.toBool))

/-- Model of `logicalOr` (eval.go lines 597-599). -/
def logicalOr (x y : Val) : Res Val :=
  .ok (.bool (x.toBool || y.toBool))

end Gokonfi

namespace Gokonfi

/-- Model of the Go interface comparison `x == y` executed by `equal`
(eval.go lines 601-606).  Two interface values with different dynamic
types compare unequal without panicking.  With equal dynamic types:
scalars compare structurally; `UnitVal` is a comparable struct (V, F,
and the `*Typ` pointer); `*RecVal` compares by pointer; `ListVal` is a
struct containing a slice, and comparing two values of an uncomparable
dynamic type is a Go runtime panic; `TypedVal` compares its `V` interface
field (which panics when both inner values are lists) and its `T` pointer.
`none` encodes the panic. -/
def goValEq : Val → Val → Option Bool
  | .int u, .int v => some (u == v)
  | .double u, .double v => some (u == v)
  | .bool u, .bool v => some (u == v)
  | .str u, .str v => some (u == v)
  | .nil, .nil => some true
  | .unit uv uf ut, .unit vv vf vt => some (uv == vv && uf == vf && ut == vt)
  | .record p _ _, .record q _ _ => some (p == q)
  | .list _, .list _ => none
  | .typed u ut, .typed v vt =>
    match goValEq u v with
    | none => none
    | some b => some (b && ut == vt)
  | _, _ => some false

/-- Model of `equal` (eval.go lines 601-606): `BoolVal(x == y)`, where the
underlying Go comparison may panic. -/
def equal (x y : Val) : Res Val :=
  match goValEq x y with
  | some b => .ok (.bool b)
  | none => .panic "runtime error: comparing uncomparable type"

/-- Model of `notEqual` (eval.go lines 608-610). -/
def notEqual (x y : Val) : Res Val :=
  match goValEq x y with
  | some b => .ok (.bool (!b))
  | none => .panic "runtime error: comparing uncomparable type"

/-- Model of `unitCompare` (eval.go lines 688-704), called only with equal
unit types by the comparison operators: rescale to the smaller multiplier,
then three-way compare. -/
def unitCompare (uv uf vv vf : ℚ) : ℤ :=
  let x := if uf > vf then uv * (uf / vf) else uv
  let y := if uf < vf then vv * (vf / uf) else vv
  if x < y then -1 else if x = y then 0 else 1

/-- Model of `lessThan` (eval.go lines 612-629). -/
def lessThan : Val → Val → Res Val
  | .int u, .int v => .ok (.bool (u < v))
  | .double u, .double v => .ok (.bool (u < v))
  | .unit uv uf ut, .unit vv vf vt =>
    if ut = vt then .ok (.bool (unitCompare uv uf vv vf < 0))
    else .err "incompatible types for comparison"
  | _, _ => .err "incompatible types for comparison"

/-- Model of `lessEq` (eval.go lines 631-648). -/
def lessEq : Val → Val → Res Val
  | .int u, .int v => .ok (.bool (u ≤ v))
  | .double u, .double v => .ok (.bool (u ≤ v))
  | .unit uv uf ut, .unit vv vf vt =>
    if ut = vt then .ok (.bool (unitCompare uv uf vv vf ≤ 0))
    else .err "incompatible types for comparison"
  | _, _ => .err "incompatible types for comparison"

/-- Model of `greaterThan` (eval.go lines 650-667). -/
def greaterThan : Val → Val → Res Val
  | .int u, .int v => .ok (.bool (u > v))
  | .double u, .double v => .ok (.bool (u > v))
  | .unit uv uf ut, .unit vv vf vt =>
    if ut = vt then .ok (.bool (unitCompare uv uf vv vf > 0))
    else .err "incompatible types for comparison"
  | _, _ => .err "incompatible types for comparison"

/-- Model of `greaterEq` (eval.go lines 669-686). -/
def greaterEq : Val → Val → Res Val
  | .int u, .int v => .ok (.bool (u ≥ v))
  | .double u, .double v => .ok (.bool (u ≥ v))
  | .unit uv uf ut, .unit vv vf vt =>
    if ut = vt then .ok (.bool (unitCompare uv uf vv vf ≥ 0))
    else .err "incompatible types for comparison"
  | _, _ => .err "incompatible types for comparison"

end Gokonfi

namespace Gokonfi

/-- Claim C2: adding two unit values of the same unit type yields a unit
value of that type whose multiplier is the smaller of the two input
multipliers and whose magnitude is the total quantity divided by that
multiplier; adding unit values of two distinct unit types is an error
(eval.go `plus`, lines 491-504). -/
theorem plus_unit_claim (v₁ f₁ v₂ f₂ : ℚ) (t₁ t₂ : Typ)
    (h₁ : 0 < f₁) (h₂ : 0 < f₂) :
    (t₁ = t₂ →
      plus (.unit v₁ f₁ t₁) (.unit v₂ f₂ t₂) =
        .ok (.unit ((v₁ * f₁ + v₂ * f₂) / min f₁ f₂) (min f₁ f₂) t₁)) ∧
    (t₁ ≠ t₂ →
      plus (.unit v₁ f₁ t₁) (.unit v₂ f₂ t₂) =
        .err "incompatible unit types for +") := by
  constructor
  · intro ht
    subst ht
    show (if t₁ ≠ t₁ then _ else _) = _
    rw [if_neg (by simp)]
    rcases lt_trichotomy f₁ f₂ with hlt | heq | hgt
    · rw [if_neg hlt.ne, if_pos hlt, min_eq_left hlt.le]
      have h1 : f₁ ≠ 0 := ne_of_gt h₁
      have h2 : f₂ ≠ 0 := ne_of_gt h₂
      congr 2
      field_simp
      try ring
    · subst heq
      rw [if_pos rfl, min_self]
      have h1 : f₁ ≠ 0 := ne_of_gt h₁
      congr 2
      field_simp
      try ring
    · rw [if_neg hgt.ne.symm, if_neg (not_lt.mpr hgt.le), min_eq_right hgt.le]
      have h2 : f₂ ≠ 0 := ne_of_gt h₂
      congr 2
      field_simp
      try ring
  · intro ht
    show (if t₁ ≠ t₂ then _ else _) = _
    rw [if_pos ht]

/-- Witness for `plus_unit_claim` at a concrete input: 7 minutes plus
3 seconds, with the duration multipliers seconds=1 and minutes=60, is
423 seconds; and adding a duration to a length of the same shape errors. -/
theorem plus_unit_claim_witness :
    (plus (.unit 7 60 ⟨"duration", [("seconds", 1), ("minutes", 60)]⟩)
          (.unit 3 1 ⟨"duration", [("seconds", 1), ("minutes", 60)]⟩) =
      .ok (.unit 423 1 ⟨"duration", [("seconds", 1), ("minutes", 60)]⟩)) ∧
    (plus (.unit 7 60 ⟨"duration", [("seconds", 1), ("minutes", 60)]⟩)
          (.unit 3 1 ⟨"length", [("m", 1)]⟩) =
      .err "incompatible unit types for +") := by
  have h := plus_unit_claim 7 60 3 1
      ⟨"duration", [("seconds", 1), ("minutes", 60)]⟩
      ⟨"duration", [("seconds", 1), ("minutes", 60)]⟩
      (by norm_num) (by norm_num)
  have h2 := plus_unit_claim 7 60 3 1
      ⟨"duration", [("seconds", 1), ("minutes", 60)]⟩
      ⟨"length", [("m", 1)]⟩
      (by norm_num) (by norm_num)
  constructor
  · have := h.1 rfl
    rw [this]
    norm_num
  · exact h2.2 (by decide)

end Gokonfi

namespace Gokonfi

/-- Claim C5 (failing input): evaluating `x / 0` on ints executes the Go
expression `u / v` (eval.go line 567) with a zero divisor, which is an
unguarded Go runtime panic, not a returned error value. -/
theorem div_int_zero_panics (x : ℤ) :
    div (.int x) (.int 0) = .panic "runtime error: integer divide by zero" := by
  rfl

/-- Claim C7 (failing inputs): `==` delegates to Go interface equality
(eval.go `equal`, lines 601-606).  Distinct record pointers compare false
(so `\x7b\x7d == \x7b\x7d` is false), but comparing two list values is a
Go runtime panic (`ListVal` contains a slice and is not comparable), so
`==` does not return false on every pair of lists and can abort. -/
theorem equal_record_false_list_panics :
    equal (.record 0 [] []) (.record 1 [] []) = .ok (.bool false) ∧
    equal (.record 0 [] []) (.record 0 [] []) = .ok (.bool true) ∧
    equal (.list []) (.list []) =
      .panic "runtime error: comparing uncomparable type" ∧
    equal (.list [.int 1]) (.list [.int 1]) =
      .panic "runtime error: comparing uncomparable type" := by
  refine ⟨rfl, rfl, rfl, rfl⟩

end Gokonfi

namespace Gokonfi

/-- Model of `builtinSubstr` (builtins.go lines 196-214), specialised to a
string first argument.  A Go `StringVal` is a byte string; `len(s)` counts
bytes and `s[start:end]` slices bytes, so the string is modelled as its
list of UTF-8 bytes.  The only guard in the source is
`start < 0 || start > end || int64(end) > int64(len(s))`; there is no
UTF-8 boundary check. -/
def builtinSubstr (s : List Nat) (start fin : ℤ) : Res (List Nat) :=
  if start < 0 ∨ start > fin ∨ (s.length : ℤ) < fin then
    .err "substr: invalid start or end arguments"
  else
    .ok ((s.drop start.toNat).take (fin - start).toNat)

/-- A UTF-8 continuation byte (10xxxxxx): a byte index of a valid UTF-8
string falls strictly inside a multi-byte character exactly when the byte
at that index is a continuation byte. -/
def isUtf8ContByte (b : Nat) : Bool :=
  128 ≤ b && b < 192

/-- Claim C9 (counterexample): `substr("ü", 0, 1)` splits the two-byte
UTF-8 character `ü` (bytes 195, 188) at index 1, which is strictly inside
the character, yet the source returns the first byte instead of an error. -/
theorem substr_split_inside_char_no_error :
    isUtf8ContByte 188 = true ∧
    builtinSubstr [195, 188] 0 1 = .ok [195] := by
  refine ⟨rfl, ?_⟩
  rfl

/-- Claim C9 (amended): `substr` interprets `start` and `end` as byte
indices; it errors exactly when `start < 0`, `start > end` or
`end > len(s)`, and otherwise returns the raw byte slice `s[start:end]` --
including when `start` or `end` falls strictly inside a multi-byte UTF-8
character. -/
theorem substr_byte_slice_spec (s : List Nat) (start fin : ℤ) :
    (start < 0 ∨ start > fin ∨ (s.length : ℤ) < fin →
      builtinSubstr s start fin = .err "substr: invalid start or end arguments") ∧
    (0 ≤ start → start ≤ fin → fin ≤ (s.length : ℤ) →
      builtinSubstr s start fin =
        .ok ((s.drop start.toNat).take (fin - start).toNat)) := by
  constructor
  · intro h
    unfold builtinSubstr
    rw [if_pos]
    rcases h with h | h | h
    · exact Or.inl h
    · exact Or.inr (Or.inl h)
    · exact Or.inr (Or.inr h)
  · intro h1 h2 h3
    unfold builtinSubstr
    rw [if_neg]
    push_neg
    exact ⟨h1, h2, h3⟩

/-- Witness for `substr_byte_slice_spec`: on the bytes of "ü" it errors for
end index 3 (out of range) and returns the first byte for the in-range
split `[0,1)`. -/
theorem substr_byte_slice_spec_witness :
    builtinSubstr [195, 188] 0 3 = .err "substr: invalid start or end arguments" ∧
    builtinSubstr [195, 188] 0 1 = .ok [195] := by
  constructor
  · exact (substr_byte_slice_spec [195, 188] 0 3).1 (by norm_num)
  · have := (substr_byte_slice_spec [195, 188] 0 1).2 (by norm_num) (by norm_num)
      (by norm_num)
    rw [this]
    rfl

end Gokonfi


namespace Gokonfi

/-- Go strings handled by the module loader are modelled as lists of
characters, so that the string functions below (`strings.Split`,
`strings.HasSuffix`, `path.IsAbs`, `path.Join`) compute structurally. -/
abbrev GoStr := List Char

/-- Model of `strings.HasSuffix`. -/
def goHasSuffix (s suffix : GoStr) : Bool :=
  decide (suffix <:+ s)

/-- Model of `strings.Split(s, ":")`: split on every colon; splitting the
empty string yields one empty part, like Go. -/
def splitColon : GoStr → List GoStr
  | [] => [[]]
  | c :: rest =>
    match splitColon rest with
    | [] => if c = ':' then [[], []] else [[c]]
    | h :: t => if c = ':' then [] :: h :: t else (c :: h) :: t

/-- Model of `path.IsAbs`: the path starts with a slash. -/
def goIsAbs : GoStr → Bool
  | '/' :: _ => true
  | _ => false

/-- Model of `path.Join` for the probe paths built by `fileForModule`
(modules.go line 77).  Go `path.Join` also cleans the result; none of the
statements below depend on cleaning, so joining is plain separator
insertion. -/
def pathJoin (dir file : GoStr) : GoStr :=
  if dir = [] then file else dir ++ '/' :: file

def konfiSuffix : GoStr := ".konfi".toList

/-- The descending index loop of `fileForModule` (modules.go lines 76-81),
expressed on the reversed directory list: probe each candidate directory in
order and return the first probe path whose `os.Stat` succeeds on a
regular file.  `stat p = true` models `os.Stat(p)` succeeding with
`!IsDir()`. -/
def probeDirs (stat : GoStr → Bool) (filename : GoStr) : List GoStr → Option GoStr
  | [] => none
  | d :: ds =>
    if stat (pathJoin d filename) then some (pathJoin d filename)
    else probeDirs stat filename ds

/-- Model of `fileForModule` (modules.go lines 59-83).  `konfiPath` is the
value of the `KONFIPATH` environment variable when set (`os.LookupEnv`).
The source appends the `.konfi` suffix when missing, handles absolute
paths directly (note: it stats the original `name` there, not the
suffixed `filename`), and otherwise iterates
`dirs = append(strings.Split(kpath, ":"), cwd)` downward from the last
index, i.e. probes `cwd` first and then the `KONFIPATH` entries in
reverse order. -/
def fileForModule (stat : GoStr → Bool) (konfiPath : Option GoStr)
    (name cwd : GoStr) : Option GoStr :=
  let filename := if goHasSuffix name konfiSuffix then name else name ++ konfiSuffix
  if goIsAbs filename then
    if stat name then some name else none
  else
    let dirs := match konfiPath with
      | none => [cwd]
      | some kp => splitColon kp ++ [cwd]
    probeDirs stat filename dirs.reverse

theorem probeDirs_append_none (stat : GoStr → Bool) (filename : GoStr)
    (ds1 ds2 : List GoStr)
    (h : ∀ d ∈ ds1, stat (pathJoin d filename) = false) :
    probeDirs stat filename (ds1 ++ ds2) = probeDirs stat filename ds2 := by
  induction ds1 with
  | nil => rfl
  | cons d ds ih =>
    have hd := h d (by simp)
    simp only [List.cons_append, probeDirs, hd]
    simp only [Bool.false_eq_true, if_false]
    exact ih (fun d' hd' => h d' (by simp [hd']))

/-- Claim C10: with `KONFIPATH` set, `fileForModule` probes the current
working directory first and then the `KONFIPATH` directories in reverse of
their listed order; hence a relative module present in several `KONFIPATH`
directories (and not in the cwd) resolves to the file from the last-listed
directory that contains it. -/
theorem fileForModule_last_konfipath_dir_wins (stat : GoStr → Bool)
    (kp name cwd : GoStr) (l₁ l₂ : List GoStr) (d : GoStr)
    (hsplit : splitColon kp = l₁ ++ d :: l₂)
    (habs : goIsAbs (if goHasSuffix name konfiSuffix then name
      else name ++ konfiSuffix) = false)
    (hcwd : stat (pathJoin cwd (if goHasSuffix name konfiSuffix then name
      else name ++ konfiSuffix)) = false)
    (hd : stat (pathJoin d (if goHasSuffix name konfiSuffix then name
      else name ++ konfiSuffix)) = true)
    (hlater : ∀ d' ∈ l₂, stat (pathJoin d' (if goHasSuffix name konfiSuffix then name
      else name ++ konfiSuffix)) = false) :
    fileForModule stat (some kp) name cwd =
      some (pathJoin d (if goHasSuffix name konfiSuffix then name
        else name ++ konfiSuffix)) := by
  unfold fileForModule
  simp only [habs, Bool.false_eq_true, if_false]
  rw [hsplit]
  have hrev : ((l₁ ++ d :: l₂) ++ [cwd]).reverse
      = (cwd :: l₂.reverse) ++ d :: l₁.reverse := by
    simp
  rw [hrev]
  rw [probeDirs_append_none stat _ _ _ ?hfail]
  · simp only [probeDirs, hd, if_true]
  case hfail =>
    intro d' hd'
    rcases List.mem_cons.mp hd' with h | h
    · subst h; exact hcwd
    · exact hlater d' (List.mem_reverse.mp h)

/-- Witness for `fileForModule_last_konfipath_dir_wins`: with
`KONFIPATH=a:x:y`, module `m` present in `x` and `y` but not in the cwd
`c`, resolution picks `y/m.konfi`, the last-listed directory containing it. -/
theorem fileForModule_last_konfipath_dir_wins_witness :
    fileForModule
      (fun p => p == "x/m.konfi".toList || p == "y/m.konfi".toList)
      (some "a:x:y".toList) "m".toList "c".toList = some "y/m.konfi".toList := by
  have h := fileForModule_last_konfipath_dir_wins
    (fun p => p == "x/m.konfi".toList || p == "y/m.konfi".toList)
    "a:x:y".toList "m".toList "c".toList
    ["a".toList, "x".toList] [] "y".toList (by decide) (by decide) (by decide)
    (by decide) (by intro d' hd'; simp at hd')
  have hj : pathJoin "y".toList (if goHasSuffix "m".toList konfiSuffix
      then "m".toList else "m".toList ++ konfiSuffix) = "y/m.konfi".toList := by
    decide
  rw [h, hj]

end Gokonfi

namespace Gokonfi

/-- Model of `token.TokenType` (token/token.go): the full constant list. -/
inductive TokenType where
  | unspecified
  | nilKw
  | boolLiteral
  | intLiteral
  | doubleLiteral
  | strLiteral
  | formatStrLiteral
  | plus
  | minus
  | times
  | div
  | modulo
  | equal
  | notEqual
  | lessThan
  | lessEq
  | greaterThan
  | greaterEq
  | logicalAnd
  | logicalOr
  | bitwiseAnd
  | bitwiseOr
  | bitwiseXor
  | shiftLeft
  | shiftRight
  | dot
  | not
  | complement
  | merge
  | comma
  | leftParen
  | rightParen
  | leftBrace
  | rightBrace
  | leftSquare
  | rightSquare
  | colon
  | ofType
  | ident
  | funcKw
  | letKw
  | templateKw
  | ifKw
  | thenKw
  | elseKw
  | endOfInput
deriving Repr, DecidableEq

/-- Model of `token.Token` (token/token.go): type tag, span, raw lexeme.
The `Fmt` field is only populated for format-string literals, which are
outside the scope of the claims settled here. -/
structure Token where
  typ : TokenType
  pos : Nat
  tEnd : Nat
  val : GoStr
deriving Repr, DecidableEq

/-- Model of the `Scanner` state (scanner.go lines 30-35): the input, the
`mark` (start of the current token) and the scan position.  The Go scanner
indexes bytes of a UTF-8 string and decodes one rune at a time; the model
indexes the decoded rune sequence directly, so positions count runes.  The
`off` field is used only by child scanners for interpolated strings, which
are outside the scope of the claims settled here. -/
structure Scanner where
  input : GoStr
  mark : Nat
  pos : Nat
deriving Repr

/-- Model of `(s *Scanner) AtEnd()` (scanner.go line 43). -/
def Scanner.atEnd (s : Scanner) : Bool :=
  s.pos ≥ s.input.length

/-- Model of `(s *Scanner) peek()` (scanner.go lines 64-70): Go returns
rune 0 at end of input. -/
def Scanner.peekChar (s : Scanner) : Char :=
  match s.input.get? s.pos with
  | some c => c
  | none => Char.ofNat 0

/-- Model of `(s *Scanner) advance()` (scanner.go lines 55-62). -/
def Scanner.advanceChar (s : Scanner) : Char × Scanner :=
  if s.atEnd then (Char.ofNat 0, s)
  else (s.peekChar, { s with pos := s.pos + 1 })

/-- Model of `(s *Scanner) match(expected)` (scanner.go lines 72-78). -/
def Scanner.matchChar (s : Scanner) (expected : Char) : Bool × Scanner :=
  if s.peekChar = expected then (true, { s with pos := s.pos + 1 })
  else (false, s)

/-- Model of `(s *Scanner) val()` (scanner.go lines 80-82): the lexeme
between mark and pos. -/
def Scanner.lexeme (s : Scanner) : GoStr :=
  (s.input.drop s.mark).take (s.pos - s.mark)

/-- Result of `NextToken`: a token, a `ScanError` (with its position), or
a construct not modelled here (string literals and their interpolations,
reached only on a `"` or `'` dispatch character). -/
inductive ScanRes where
  | tok (t : Token)
  | scanErr (pos : Nat) (msg : String)
  | unmodelled (what : String)
deriving Repr, DecidableEq

/-- Model of `(s *Scanner) token(typ)` (scanner.go lines 84-90). -/
def Scanner.emit (s : Scanner) (typ : TokenType) : ScanRes × Scanner :=
  (.tok ⟨typ, s.mark, s.pos, s.lexeme⟩, s)

/-- Model of the post-switch failure `s.fail("invalid lexeme '%c'", r)`
(scanner.go line 223), reached both for unrecognised runes and for a
single `=`, `&` or `|` whose second character does not follow: the Go
`case` arms for those runes end without returning, so control exits the
switch into this error return. -/
def Scanner.invalidLexeme (s : Scanner) (c : Char) : ScanRes × Scanner :=
  (.scanErr s.mark ("invalid lexeme " ++ String.singleton c), s)

/-- Model of the keyword table (scanner.go lines 14-24). -/
def keywordLookup (w : GoStr) : Option TokenType :=
  if w = "func".toList then some .funcKw
  else if w = "let".toList then some .letKw
  else if w = "template".toList then some .templateKw
  else if w = "if".toList then some .ifKw
  else if w = "then".toList then some .thenKw
  else if w = "else".toList then some .elseKw
  else if w = "true".toList then some .boolLiteral
  else if w = "false".toList then some .boolLiteral
  else if w = "nil".toList then some .nilKw
  else none

/-- Identifier continuation characters after the first (scanner.go line
261): letters, `_`, digits.  `unicode.IsLetter` is modelled by
`Char.isAlpha`; the claims settled here involve no non-ASCII letters. -/
def identTailLen : GoStr → Nat
  | [] => 0
  | c :: rest =>
    if c.isAlpha || c = '_' || c.isDigit then identTailLen rest + 1 else 0

/-- Model of `(s *Scanner) ident()` (scanner.go lines 257-275): extend the
lexeme while identifier characters follow, then classify it through the
keyword table.  The caller dispatched on a first character that is a
letter or `_`, so the lexeme is non-empty. -/
def Scanner.scanIdent (s : Scanner) : ScanRes × Scanner :=
  match s.input.drop s.mark with
  | [] => (.scanErr s.mark "invalid identifier", s)
  | c :: rest =>
    if c.isAlpha || c = '_' then
      let s2 : Scanner := { s with pos := s.mark + 1 + identTailLen rest }
      match keywordLookup s2.lexeme with
      | some kw => s2.emit kw
      | none => s2.emit .ident
    else (.scanErr s.mark "invalid identifier", s)

def digitsLen : GoStr → Nat
  | [] => 0
  | c :: rest => if c.isDigit then digitsLen rest + 1 else 0

/-- Length matched by the optional exponent part `[eE][+-]?\d+` of the
number regex (scanner.go line 26); zero when the exponent does not fully
match (the regex then backtracks to not consuming it). -/
def expLen : GoStr → Nat
  | [] => 0
  | c :: rest =>
    if c = 'e' ∨ c = 'E' then
      match rest with
      | s :: rest2 =>
        if s = '+' ∨ s = '-' then
          if digitsLen rest2 > 0 then 2 + digitsLen rest2 else 0
        else if digitsLen rest > 0 then 1 + digitsLen rest else 0
      | [] => 0
    else 0

/-- Matcher for the anchored number regex of scanner.go line 26,
alternation tried left to right:
`\d+[eE][+-]?\d+` then `\d*\.\d+(exp)?` then `\d+\.\d*(exp)?` then the
capture-group alternative `(\d+)`.  Returns the matched length and
whether the integer-literal group matched. -/
def numberMatch (t : GoStr) : Option (Nat × Bool) :=
  let d1 := digitsLen t
  let t1 := t.drop d1
  if d1 > 0 ∧ expLen t1 > 0 then some (d1 + expLen t1, false)
  else
    match t1 with
    | '.' :: t2 =>
      let d2 := digitsLen t2
      if d2 > 0 then some (d1 + 1 + d2 + expLen (t2.drop d2), false)
      else if d1 > 0 then some (d1 + 1 + expLen t2, false)
      else none
    | _ => if d1 > 0 then some (d1, true) else none

/-- Model of `(s *Scanner) number()` (scanner.go lines 278-290): apply the
number regex at the mark; `ix == nil` is the "invalid double literal"
error; the integer capture group decides IntLiteral versus DoubleLiteral. -/
def Scanner.scanNumber (s : Scanner) : ScanRes × Scanner :=
  match numberMatch (s.input.drop s.mark) with
  | none => (.scanErr s.mark "invalid double literal", s)
  | some (len, isInt) =>
    let s2 : Scanner := { s with pos := s.mark + len }
    s2.emit (if isInt then .intLiteral else .doubleLiteral)

/-- Model of `(s *Scanner) eatline()` (scanner.go lines 247-255): the
number of characters consumed up to and including the next newline. -/
def eatlineLen : GoStr → Nat
  | [] => 0
  | c :: rest => if c = '\n' then 1 else 1 + eatlineLen rest

def Scanner.eatline (s : Scanner) : Scanner :=
  { s with pos := s.pos + eatlineLen (s.input.drop s.pos) }

/-- Model of `(s *Scanner) NextToken()` (scanner.go lines 138-226).  The
`fuel` bounds the iterations of the whitespace/comment-skipping loop (the
Go loop advances at least one character per iteration, so
`input.length + 1` fuel always suffices).  The `utf8.RuneError` check is
vacuous here because the input is already a rune sequence.  String
literals (`"` or `'`) dispatch to `stringLit`, which is not modelled;
every other dispatch arm is transcribed.  The arms for `=`, `&` and `|`
return a token only for the doubled form; the single form falls out of the
switch into the "invalid lexeme" error return (line 223). -/
def Scanner.nextToken : Nat → Scanner → ScanRes × Scanner
  | 0, s => (.scanErr s.pos "fuel exhausted", s)
  | fuel + 1, s =>
    if s.atEnd then s.emit .endOfInput
    else
      let s1 : Scanner := { s with mark := s.pos }
      let (r, s2) := s1.advanceChar
      if r = '_' || r.isAlpha then s2.scanIdent
      else if r = '(' then s2.emit .leftParen
      else if r = ')' then s2.emit .rightParen
      else if r = '{' then s2.emit .leftBrace
      else if r = '}' then s2.emit .rightBrace
      else if r = '[' then s2.emit .leftSquare
      else if r = ']' then s2.emit .rightSquare
      else if r = ',' then s2.emit .comma
      else if r = ':' then s2.emit .colon
      else if r = '+' then s2.emit .plus
      else if r = '-' then s2.emit .minus
      else if r = '*' then s2.emit .times
      else if r = '@' then s2.emit .merge
      else if r = '/' then
        let (m, s3) := s2.matchChar '/'
        if m then Scanner.nextToken fuel s3.eatline
        else s2.emit .div
      else if r = '.' then
        let u := s2.peekChar
        if '0' ≤ u ∧ u ≤ '9' then s2.scanNumber
        else s2.emit .dot
      else if '0' ≤ r ∧ r ≤ '9' then s2.scanNumber
      else if r = '<' then
        let (m, s3) := s2.matchChar '='
        if m then s3.emit .lessEq else s2.emit .lessThan
      else if r = '>' then
        let (m, s3) := s2.matchChar '='
        if m then s3.emit .greaterEq else s2.emit .greaterThan
      else if r = '=' then
        let (m, s3) := s2.matchChar '='
        if m then s3.emit .equal else s2.invalidLexeme r
      else if r = '!' then
        let (m, s3) := s2.matchChar '='
        if m then s3.emit .notEqual else s2.emit .not
      else if r = '&' then
        let (m, s3) := s2.matchChar '&'
        if m then s3.emit .logicalAnd else s2.invalidLexeme r
      else if r = '|' then
        let (m, s3) := s2.matchChar '|'
        if m then s3.emit .logicalOr else s2.invalidLexeme r
      else if r = '"' || r = '\'' then (.unmodelled "string literal", s2)
      else if r = ' ' || r = '\t' || r = '\n' || r = '\r' then
        Scanner.nextToken fuel s2
      else s2.invalidLexeme r

end Gokonfi

namespace Gokonfi

/-- Claim C8 (counterexample): scanning a single `=`, `&` or `|` does not
emit any base-form token: the Go `case` arms fall out of the switch into
the `invalid lexeme` error return (scanner.go line 223).  The token
package even has no token type for a single `=`. -/
theorem scanner_lone_half_is_error :
    (Scanner.nextToken 2 ⟨"=".toList, 0, 0⟩).1 = .scanErr 0 "invalid lexeme =" ∧
    (Scanner.nextToken 2 ⟨"&".toList, 0, 0⟩).1 = .scanErr 0 "invalid lexeme &" ∧
    (Scanner.nextToken 2 ⟨"|".toList, 0, 0⟩).1 = .scanErr 0 "invalid lexeme |" := by
  refine ⟨rfl, rfl, rfl⟩

/-- Claim C8 (amended): at every input position where the scanner
dispatches on `=`, `&` or `|`, the doubled form is tokenised as `==`,
`&&`, `||`, and the unmatched half produces a scan error "invalid lexeme"
at that position -- no token is emitted for it, permissively or otherwise. -/
theorem scanner_half_dispatch_spec (fuel : Nat) (rest : GoStr) :
    ((Scanner.nextToken (fuel + 1) ⟨'=' :: '=' :: rest, 0, 0⟩).1 =
      .tok ⟨.equal, 0, 2, ['=', '=']⟩) ∧
    ((Scanner.nextToken (fuel + 1) ⟨'&' :: '&' :: rest, 0, 0⟩).1 =
      .tok ⟨.logicalAnd, 0, 2, ['&', '&']⟩) ∧
    ((Scanner.nextToken (fuel + 1) ⟨'|' :: '|' :: rest, 0, 0⟩).1 =
      .tok ⟨.logicalOr, 0, 2, ['|', '|']⟩) ∧
    (rest.head? ≠ some '=' →
      (Scanner.nextToken (fuel + 1) ⟨'=' :: rest, 0, 0⟩).1 =
        .scanErr 0 "invalid lexeme =") ∧
    (rest.head? ≠ some '&' →
      (Scanner.nextToken (fuel + 1) ⟨'&' :: rest, 0, 0⟩).1 =
        .scanErr 0 "invalid lexeme &") ∧
    (rest.head? ≠ some '|' →
      (Scanner.nextToken (fuel + 1) ⟨'|' :: rest, 0, 0⟩).1 =
        .scanErr 0 "invalid lexeme |") := by
  refine ⟨?_, ?_, ?_, ?_, ?_, ?_⟩
  · simp [Scanner.nextToken, Scanner.atEnd, Scanner.advanceChar, Scanner.peekChar,
      Scanner.matchChar, Scanner.emit, Scanner.lexeme]
  · simp [Scanner.nextToken, Scanner.atEnd, Scanner.advanceChar, Scanner.peekChar,
      Scanner.matchChar, Scanner.emit, Scanner.lexeme]
  · simp [Scanner.nextToken, Scanner.atEnd, Scanner.advanceChar, Scanner.peekChar,
      Scanner.matchChar, Scanner.emit, Scanner.lexeme]
  · intro h
    cases rest with
    | nil => rfl
    | cons c rest2 =>
      have hc : c ≠ '=' := by simpa using h
      simp [Scanner.nextToken, Scanner.atEnd, Scanner.advanceChar, Scanner.peekChar,
        Scanner.matchChar, Scanner.invalidLexeme, hc]
      rfl
  · intro h
    cases rest with
    | nil => rfl
    | cons c rest2 =>
      have hc : c ≠ '&' := by simpa using h
      simp [Scanner.nextToken, Scanner.atEnd, Scanner.advanceChar, Scanner.peekChar,
        Scanner.matchChar, Scanner.invalidLexeme, hc]
      rfl
  · intro h
    cases rest with
    | nil => rfl
    | cons c rest2 =>
      have hc : c ≠ '|' := by simpa using h
      simp [Scanner.nextToken, Scanner.atEnd, Scanner.advanceChar, Scanner.peekChar,
        Scanner.matchChar, Scanner.invalidLexeme, hc]
      rfl

/-- Witness for `scanner_half_dispatch_spec` at the input tails `'1'` and
`[]`: `=1` errors at the `=` while `==` scans as one Equal token. -/
theorem scanner_half_dispatch_spec_witness :
    (Scanner.nextToken 1 ⟨'=' :: ['1'], 0, 0⟩).1 = .scanErr 0 "invalid lexeme =" ∧
    (Scanner.nextToken 1 ⟨'=' :: '=' :: [], 0, 0⟩).1 = .tok ⟨.equal, 0, 2, ['=', '=']⟩ := by
  constructor
  · exact (scanner_half_dispatch_spec 0 ['1']).2.2.2.1 (by decide)
  · exact (scanner_half_dispatch_spec 0 []).1

end Gokonfi

namespace Gokonfi

/-- Association-list read, mirroring a Go map read `m[f]` (first match;
all maps in the interpreter have unique keys). -/
def alistGet {α : Type} (f : String) : List (String × α) → Option α
  | [] => none
  | (g, v) :: rest => if g = f then some v else alistGet f rest

/-- Association-list write, mirroring a Go map write `m[f] = v`. -/
def alistSet {α : Type} (f : String) (v : α) : List (String × α) → List (String × α)
  | [] => [(f, v)]
  | (g, w) :: rest => if g = f then (f, v) :: rest else (g, w) :: alistSet f v rest

/-- The mutable `Fields` and `FieldAnnotations` maps of a `*RecVal` under
construction (eval.go `RecVal`, lines 253-256). -/
structure RecData where
  fields : List (String × Val)
  annots : List (String × FieldAnnotation)
deriving Repr

/-- Model of `(r *RecVal) setField` (eval.go lines 274-279): always set the
field; set the annotation only when one is given. -/
def RecData.setField (r : RecData) (f : String) (v : Val)
    (anno : Option FieldAnnotation) : RecData :=
  { fields := alistSet f v r.fields,
    annots :=
      match anno with
      | none => r.annots
      | some a => alistSet f a r.annots }

/-- Model of `typeCheck` (types.go lines 524-533): a nil type always
passes; otherwise the value's type must be identical to `t`. -/
def typeCheck (v : Val) (t : Option Typ) : Except String Unit :=
  match t with
  | none => .ok ()
  | some t => if t = v.typOf then .ok () else .error "incompatible types"

def Val.isRecordB : Val → Bool
  | .record _ _ _ => true
  | _ => false

def Val.isTypedB : Val → Bool
  | .typed _ _ => true
  | _ => false

/-- The first loop of `mergeRecVal` (eval.go lines 1064-1069): copy into
`r` every field of `x` that is not present in `y`, with `x`'s annotation. -/
def copyXOnly (fy : List (String × Val)) (ax : List (String × FieldAnnotation)) :
    List (String × Val) → RecData → RecData
  | [], r => r
  | (f, vx) :: rest, r =>
    match alistGet f fy with
    | none => copyXOnly fy ax rest (r.setField f vx (alistGet f ax))
    | some _ => copyXOnly fy ax rest r

/-- The second loop of `mergeRecVal` (eval.go lines 1070-1122), processing
the fields of `y` in order against the field map `fx` (and annotation maps
`ax`, `ay`) of `x` and `y`.  `r` is the record being built, `ctr` the
allocation counter for the `NewRec()` calls of recursive merges.  Faithful
transcription notes: when only `x` annotates a common field, `y`'s value is
type-checked and (for unit annotations with a positive multiplier) rescaled;
the `vx.(TypedVal)` check then still runs (eval.go lines 1102-1104), while
the `vy` checks cannot fire on the rescaled value (a unit value is neither
a `TypedVal` nor a record), so the unit branch performs only the `vx` check
before the final `setField`; the `log.Fatalf` for a non-unit value passing
a unit type check is the process-terminating `panic` outcome. -/
def mergeY (fx : List (String × Val)) (ax ay : List (String × FieldAnnotation)) :
    List (String × Val) → RecData → Nat → Res (RecData × Nat)
  | [], r, ctr => .ok (r, ctr)
  | (f, vy) :: rest, r, ctr =>
    match alistGet f fx with
    | none => mergeY fx ax ay rest (r.setField f vy (alistGet f ay)) ctr
    | some vx =>
      let axf := alistGet f ax
      let ayf := alistGet f ay
      let targetType : Option FieldAnnotation :=
        match ayf with
        | some a => some a
        | none => axf
      match axf, ayf with
      | some a, none =>
        match typeCheck vy (some a.t) with
        | .error _ => .err ("type error merging record field " ++ f)
        | .ok _ =>
          if a.t.isUnitTyp then
            match vy with
            | .unit uv uf ut =>
              let vy2 := if a.m > 0 then unitWithF uv uf ut a.m else .unit uv uf ut
              match vx with
              | .typed _ _ => .err "merging TypedVal is not implemented"
              | _ => mergeY fx ax ay rest (r.setField f vy2 targetType) ctr
            | _ => .panic "value passes unit type check but is not a unit"
          else
            match vx, vy with
            | .typed _ _, _ => .err "merging TypedVal is not implemented"
            | _, .typed _ _ => .err "merging TypedVal is not implemented"
            | .record _ rxf rxa, .record _ ryf rya =>
              match mergeY rxf rxa rya ryf (copyXOnly ryf rxa rxf ⟨[], []⟩) (ctr + 1) with
              | .ok (sub, ctr2) =>
                mergeY fx ax ay rest
                  (r.setField f (.record ctr sub.fields sub.annots) targetType) ctr2
              | .err e => .err e
              | .panic m => .panic m
            | _, _ => mergeY fx ax ay rest (r.setField f vy targetType) ctr
      | _, _ =>
        match vx, vy with
        | .typed _ _, _ => .err "merging TypedVal is not implemented"
        | _, .typed _ _ => .err "merging TypedVal is not implemented"
        | .record _ rxf rxa, .record _ ryf rya =>
          match mergeY rxf rxa rya ryf (copyXOnly ryf rxa rxf ⟨[], []⟩) (ctr + 1) with
          | .ok (sub, ctr2) =>
            mergeY fx ax ay rest
              (r.setField f (.record ctr sub.fields sub.annots) targetType) ctr2
          | .err e => .err e
          | .panic m => .panic m
        | _, _ => mergeY fx ax ay rest (r.setField f vy targetType) ctr
  termination_by fyl _ _ => sizeOf fyl
  decreasing_by all_goals (simp_wf; try omega)

/-- Model of `mergeRecVal` (eval.go lines 1063-1124) on the field and
annotation maps of two records: seed the result with the fields only in
`x`, then process every field of `y`. -/
def mergeRecData (fx : List (String × Val)) (ax : List (String × FieldAnnotation))
    (fy : List (String × Val)) (ay : List (String × FieldAnnotation))
    (ctr : Nat) : Res (RecData × Nat) :=
  mergeY fx ax ay fy (copyXOnly fy ax fx ⟨[], []⟩) ctr

/-- Model of `mergeValues` (eval.go lines 1047-1061): both operands must
be records; allocate the result record (`NewRec()`), then merge. -/
def mergeValues (x y : Val) (ctr : Nat) : Res (Val × Nat) :=
  match x with
  | .record _ fx ax =>
    match y with
    | .record _ fy ay =>
      match mergeRecData fx ax fy ay (ctr + 1) with
      | .ok (r, ctr2) => .ok (.record ctr r.fields r.annots, ctr2)
      | .err e => .err e
      | .panic m => .panic m
    | _ => .err "cannot merge rhs"
  | _ => .err "cannot merge lhs"

end Gokonfi

namespace Gokonfi

theorem alistGet_set_self {α : Type} (f : String) (v : α) (l : List (String × α)) :
    alistGet f (alistSet f v l) = some v := by
  induction l with
  | nil => simp [alistSet, alistGet]
  | cons hd rest ih =>
    obtain ⟨g, w⟩ := hd
    by_cases hg : g = f
    · simp [alistSet, hg, alistGet]
    · simp [alistSet, hg, alistGet, ih]

theorem alistGet_set_ne {α : Type} (f g : String) (v : α) (l : List (String × α))
    (hg : g ≠ f) : alistGet f (alistSet g v l) = alistGet f l := by
  induction l with
  | nil => simp [alistSet, alistGet, hg]
  | cons hd rest ih =>
    obtain ⟨k, w⟩ := hd
    by_cases hk : k = g
    · subst hk
      simp [alistSet, alistGet, hg]
    · simp only [alistSet, if_neg hk, alistGet]
      by_cases hkf : k = f
      · simp [hkf]
      · simp [hkf, ih]

theorem alistGet_none_of_notmem {α : Type} (f : String) (l : List (String × α))
    (h : f ∉ l.map Prod.fst) : alistGet f l = none := by
  induction l with
  | nil => rfl
  | cons hd rest ih =>
    obtain ⟨g, w⟩ := hd
    simp only [List.map_cons, List.mem_cons] at h
    push_neg at h
    have hg : ¬(g = f) := fun hh => h.1 hh.symm
    simp [alistGet, hg, ih h.2]

theorem setField_fields_ne (r : RecData) (g f : String) (v : Val)
    (a : Option FieldAnnotation) (hg : g ≠ f) :
    alistGet f (r.setField g v a).fields = alistGet f r.fields := by
  cases a <;> simp [RecData.setField, alistGet_set_ne _ _ _ _ hg]

theorem setField_annots_ne (r : RecData) (g f : String) (v : Val)
    (a : Option FieldAnnotation) (hg : g ≠ f) :
    alistGet f (r.setField g v a).annots = alistGet f r.annots := by
  cases a
  · rfl
  · simp [RecData.setField, alistGet_set_ne _ _ _ _ hg]

theorem copyXOnly_notmem (fy : List (String × Val)) (ax : List (String × FieldAnnotation))
    (f : String) :
    ∀ (fxl : List (String × Val)) (r : RecData), alistGet f fxl = none →
    alistGet f (copyXOnly fy ax fxl r).fields = alistGet f r.fields ∧
    alistGet f (copyXOnly fy ax fxl r).annots = alistGet f r.annots := by
  intro fxl
  induction fxl with
  | nil => intro r _; exact ⟨rfl, rfl⟩
  | cons hd rest ih =>
    obtain ⟨g, w⟩ := hd
    intro r hf
    have hg : ¬(g = f) := by
      intro h; rw [h] at hf; simp [alistGet] at hf
    have hfr : alistGet f rest = none := by simpa [alistGet, hg] using hf
    cases hgy : alistGet g fy with
    | none =>
      simp only [copyXOnly, hgy]
      obtain ⟨h1, h2⟩ := ih (r.setField g w (alistGet g ax)) hfr
      exact ⟨h1.trans (setField_fields_ne _ _ _ _ _ hg),
             h2.trans (setField_annots_ne _ _ _ _ _ hg)⟩
    | some a =>
      simp only [copyXOnly, hgy]
      exact ih r hfr

theorem copyXOnly_skip (fy : List (String × Val)) (ax : List (String × FieldAnnotation))
    (f : String) (vf : Val) (hy : alistGet f fy = some vf) :
    ∀ (fxl : List (String × Val)) (r : RecData),
    alistGet f (copyXOnly fy ax fxl r).fields = alistGet f r.fields ∧
    alistGet f (copyXOnly fy ax fxl r).annots = alistGet f r.annots := by
  intro fxl
  induction fxl with
  | nil => intro r; exact ⟨rfl, rfl⟩
  | cons hd rest ih =>
    obtain ⟨g, w⟩ := hd
    intro r
    cases hgy : alistGet g fy with
    | none =>
      have hg : ¬(g = f) := by
        intro h; rw [h] at hgy; rw [hgy] at hy; exact Option.noConfusion hy
      simp only [copyXOnly, hgy]
      obtain ⟨h1, h2⟩ := ih (r.setField g w (alistGet g ax))
      exact ⟨h1.trans (setField_fields_ne _ _ _ _ _ hg),
             h2.trans (setField_annots_ne _ _ _ _ _ hg)⟩
    | some a =>
      simp only [copyXOnly, hgy]
      exact ih r

theorem copyXOnly_mem (fy : List (String × Val)) (ax : List (String × FieldAnnotation))
    (f : String) (vx : Val) :
    ∀ (fxl : List (String × Val)) (r : RecData),
    (fxl.map Prod.fst).Nodup → alistGet f fxl = some vx → alistGet f fy = none →
    alistGet f (copyXOnly fy ax fxl r).fields = some vx ∧
    alistGet f (copyXOnly fy ax fxl r).annots =
      (match alistGet f ax with
       | some a => some a
       | none => alistGet f r.annots) := by
  intro fxl
  induction fxl with
  | nil => intro r _ hf _; simp [alistGet] at hf
  | cons hd rest ih =>
    obtain ⟨g, w⟩ := hd
    intro r hnd hf hy
    simp only [List.map_cons, List.nodup_cons] at hnd
    by_cases hg : g = f
    · subst hg
      have hw : w = vx := by simpa [alistGet] using hf
      subst hw
      have hrest : alistGet g rest = none := alistGet_none_of_notmem _ _ hnd.1
      simp only [copyXOnly, hy]
      obtain ⟨h1, h2⟩ := copyXOnly_notmem fy ax g rest (r.setField g w (alistGet g ax)) hrest
      constructor
      · rw [h1]
        cases hax : alistGet g ax <;>
          simp [RecData.setField, alistGet_set_self]
      · rw [h2]
        cases hax : alistGet g ax <;>
          simp [RecData.setField, hax, alistGet_set_self]
    · have hfr : alistGet f rest = some vx := by simpa [alistGet, hg] using hf
      cases hgy : alistGet g fy with
      | none =>
        simp only [copyXOnly, hgy]
        obtain ⟨h1, h2⟩ := ih (r.setField g w (alistGet g ax)) hnd.2 hfr hy
        refine ⟨h1, ?_⟩
        rw [h2]
        cases hax : alistGet f ax
        · simp [setField_annots_ne _ _ _ _ _ hg]
        · simp
      | some a =>
        simp only [copyXOnly, hgy]
        exact ih r hnd.2 hfr hy

end Gokonfi
namespace Gokonfi

/-- Every successful step of `mergeY` on a non-empty field list performs
exactly one `setField` for the head field and recurses on the tail. -/
theorem mergeY_cons_ok_exists (fx : List (String × Val))
    (ax ay : List (String × FieldAnnotation)) (g : String) (vy : Val)
    (rest : List (String × Val)) (r : RecData) (ctr : Nat) (r' : RecData) (ctr' : Nat)
    (hok : mergeY fx ax ay ((g, vy) :: rest) r ctr = .ok (r', ctr')) :
    ∃ v2 anno ctr2, mergeY fx ax ay rest (r.setField g v2 anno) ctr2 = .ok (r', ctr') := by
  cases hfx : alistGet g fx with
  | none =>
    simp only [mergeY, hfx] at hok
    exact ⟨vy, alistGet g ay, ctr, hok⟩
  | some vx =>
    simp only [mergeY, hfx] at hok
    cases hax : alistGet g ax with
    | none =>
      simp only [hax] at hok
      split at hok
      · exact absurd hok (by simp)
      · exact absurd hok (by simp)
      · split at hok
        · exact ⟨_, _, _, hok⟩
        · exact absurd hok (by simp)
        · exact absurd hok (by simp)
      · exact ⟨_, _, _, hok⟩
    | some a =>
      cases hay : alistGet g ay with
      | none =>
        simp only [hax, hay] at hok
        cases htc : typeCheck vy (some a.t) with
        | error e =>
          simp only [htc] at hok
          exact absurd hok (by simp)
        | ok u =>
          simp only [htc] at hok
          by_cases hu : a.t.isUnitTyp = true
          · rw [if_pos hu] at hok
            repeat' split at hok
            all_goals first
              | exact ⟨_, _, _, hok⟩
              | exact absurd hok (by simp)
          · rw [if_neg hu] at hok
            split at hok
            · exact absurd hok (by simp)
            · exact absurd hok (by simp)
            · split at hok
              · exact ⟨_, _, _, hok⟩
              · exact absurd hok (by simp)
              · exact absurd hok (by simp)
            · exact ⟨_, _, _, hok⟩
      | some a2 =>
        simp only [hax, hay] at hok
        split at hok
        · exact absurd hok (by simp)
        · exact absurd hok (by simp)
        · split at hok
          · exact ⟨_, _, _, hok⟩
          · exact absurd hok (by simp)
          · exact absurd hok (by simp)
        · exact ⟨_, _, _, hok⟩

/-- When the head field of `y` is absent from `x`, the `mergeY` step is the
deterministic `setField` of `y`'s value with `y`'s annotation
(eval.go lines 1072-1074). -/
theorem mergeY_step_yonly (fx : List (String × Val))
    (ax ay : List (String × FieldAnnotation)) (g : String) (vy : Val)
    (rest : List (String × Val)) (r : RecData) (ctr : Nat) (r' : RecData) (ctr' : Nat)
    (hx : alistGet g fx = none)
    (hok : mergeY fx ax ay ((g, vy) :: rest) r ctr = .ok (r', ctr')) :
    mergeY fx ax ay rest (r.setField g vy (alistGet g ay)) ctr = .ok (r', ctr') := by
  simpa only [mergeY, hx] using hok

/-- When the head field of `y` is also in `x`, `x` does not annotate it,
neither value is a `TypedVal`, and the two values are not both records,
the `mergeY` step takes `y`'s value with `y`'s annotation
(eval.go lines 1119-1121). -/
theorem mergeY_step_common (fx : List (String × Val))
    (ax ay : List (String × FieldAnnotation)) (g : String) (vx vy : Val)
    (rest : List (String × Val)) (r : RecData) (ctr : Nat) (r' : RecData) (ctr' : Nat)
    (hx : alistGet g fx = some vx) (hax : alistGet g ax = none)
    (htx : vx.isTypedB = false) (hty : vy.isTypedB = false)
    (hrec : ¬(vx.isRecordB = true ∧ vy.isRecordB = true))
    (hok : mergeY fx ax ay ((g, vy) :: rest) r ctr = .ok (r', ctr')) :
    mergeY fx ax ay rest (r.setField g vy (alistGet g ay)) ctr = .ok (r', ctr') := by
  simp only [mergeY, hx, hax] at hok
  have hanno : (match alistGet g ay with
      | some a => some a
      | none => (none : Option FieldAnnotation)) = alistGet g ay := by
    cases alistGet g ay <;> rfl
  split at hok
  · simp [Val.isTypedB] at htx
  · simp [Val.isTypedB] at hty
  · simp [Val.isRecordB] at hrec
  · rw [hanno] at hok
    exact hok

/-- Fields of `y` never touched by the remaining iteration keep their
state in the record being built. -/
theorem mergeY_preserve (fx : List (String × Val))
    (ax ay : List (String × FieldAnnotation)) (f : String) :
    ∀ (fyl : List (String × Val)) (r : RecData) (ctr : Nat) (r' : RecData) (ctr' : Nat),
    alistGet f fyl = none →
    mergeY fx ax ay fyl r ctr = .ok (r', ctr') →
    alistGet f r'.fields = alistGet f r.fields ∧
    alistGet f r'.annots = alistGet f r.annots := by
  intro fyl
  induction fyl with
  | nil =>
    intro r ctr r' ctr' _ hok
    simp only [mergeY, Res.ok.injEq, Prod.mk.injEq] at hok
    rw [← hok.1]
    exact ⟨rfl, rfl⟩
  | cons hd rest ih =>
    obtain ⟨g, vy⟩ := hd
    intro r ctr r' ctr' hf hok
    have hg : ¬(g = f) := by
      intro h; rw [h] at hf; simp [alistGet] at hf
    have hfr : alistGet f rest = none := by simpa [alistGet, hg] using hf
    obtain ⟨v2, anno, ctr2, hstep⟩ :=
      mergeY_cons_ok_exists fx ax ay g vy rest r ctr r' ctr' hok
    obtain ⟨h1, h2⟩ := ih _ _ _ _ hfr hstep
    exact ⟨h1.trans (setField_fields_ne _ _ _ _ _ hg),
           h2.trans (setField_annots_ne _ _ _ _ _ hg)⟩

/-- A field only in `y` ends with `y`'s value and `y`'s annotation
(falling back to the seeded record's annotation when `y` has none). -/
theorem mergeY_yonly (fx : List (String × Val))
    (ax ay : List (String × FieldAnnotation)) (f : String) (vy : Val) :
    ∀ (fyl : List (String × Val)) (r : RecData) (ctr : Nat) (r' : RecData) (ctr' : Nat),
    (fyl.map Prod.fst).Nodup →
    alistGet f fyl = some vy → alistGet f fx = none →
    mergeY fx ax ay fyl r ctr = .ok (r', ctr') →
    alistGet f r'.fields = some vy ∧
    alistGet f r'.annots =
      (match alistGet f ay with
       | some a => some a
       | none => alistGet f r.annots) := by
  intro fyl
  induction fyl with
  | nil => intro r ctr r' ctr' _ hf _ _; simp [alistGet] at hf
  | cons hd rest ih =>
    obtain ⟨g, w⟩ := hd
    intro r ctr r' ctr' hnd hf hx hok
    simp only [List.map_cons, List.nodup_cons] at hnd
    by_cases hg : g = f
    · subst hg
      have hw : w = vy := by simpa [alistGet] using hf
      subst hw
      have hrest : alistGet g rest = none := alistGet_none_of_notmem _ _ hnd.1
      have hstep := mergeY_step_yonly fx ax ay g w rest r ctr r' ctr' hx hok
      obtain ⟨h1, h2⟩ := mergeY_preserve fx ax ay g rest _ _ _ _ hrest hstep
      constructor
      · rw [h1]
        simp [RecData.setField, alistGet_set_self]
      · rw [h2]
        cases hay : alistGet g ay <;>
          simp [RecData.setField, hay, alistGet_set_self]
    · have hfr : alistGet f rest = some vy := by simpa [alistGet, hg] using hf
      obtain ⟨v2, anno, ctr2, hstep⟩ :=
        mergeY_cons_ok_exists fx ax ay g w rest r ctr r' ctr' hok
      obtain ⟨h1, h2⟩ := ih _ _ _ _ hnd.2 hfr hx hstep
      refine ⟨h1, ?_⟩
      rw [h2]
      cases hay : alistGet f ay
      · simp [setField_annots_ne _ _ _ _ _ hg]
      · simp

/-- A field in both records, unannotated in `x`, with neither value a
`TypedVal` and not both values records, ends with `y`'s value and `y`'s
annotation. -/
theorem mergeY_common (fx : List (String × Val))
    (ax ay : List (String × FieldAnnotation)) (f : String) (vx vy : Val) :
    ∀ (fyl : List (String × Val)) (r : RecData) (ctr : Nat) (r' : RecData) (ctr' : Nat),
    (fyl.map Prod.fst).Nodup →
    alistGet f fyl = some vy → alistGet f fx = some vx →
    alistGet f ax = none →
    vx.isTypedB = false → vy.isTypedB = false →
    ¬(vx.isRecordB = true ∧ vy.isRecordB = true) →
    mergeY fx ax ay fyl r ctr = .ok (r', ctr') →
    alistGet f r'.fields = some vy ∧
    alistGet f r'.annots =
      (match alistGet f ay with
       | some a => some a
       | none => alistGet f r.annots) := by
  intro fyl
  induction fyl with
  | nil => intro r ctr r' ctr' _ hf _ _ _ _ _ _; simp [alistGet] at hf
  | cons hd rest ih =>
    obtain ⟨g, w⟩ := hd
    intro r ctr r' ctr' hnd hf hx hax htx hty hrec hok
    simp only [List.map_cons, List.nodup_cons] at hnd
    by_cases hg : g = f
    · subst hg
      have hw : w = vy := by simpa [alistGet] using hf
      subst hw
      have hrest : alistGet g rest = none := alistGet_none_of_notmem _ _ hnd.1
      have hstep := mergeY_step_common fx ax ay g vx w rest r ctr r' ctr'
        hx hax htx hty hrec hok
      obtain ⟨h1, h2⟩ := mergeY_preserve fx ax ay g rest _ _ _ _ hrest hstep
      constructor
      · rw [h1]
        simp [RecData.setField, alistGet_set_self]
      · rw [h2]
        cases hay : alistGet g ay <;>
          simp [RecData.setField, hay, alistGet_set_self]
    · have hfr : alistGet f rest = some vy := by simpa [alistGet, hg] using hf
      obtain ⟨v2, anno, ctr2, hstep⟩ :=
        mergeY_cons_ok_exists fx ax ay g w rest r ctr r' ctr' hok
      obtain ⟨h1, h2⟩ := ih _ _ _ _ hnd.2 hfr hx hax htx hty hrec hstep
      refine ⟨h1, ?_⟩
      rw [h2]
      cases hay : alistGet f ay
      · simp [setField_annots_ne _ _ _ _ _ hg]
      · simp

/-- Claim C3 (counterexample): a scalar collision under a field annotation
on the left record does not take `b`'s value: when only `a` annotates the
common field and `b`'s value fails the type check, merge errors
(eval.go lines 1081-1084).  Here `a = {k::int: 1}` and `b = {k: "s"}`. -/
theorem merge_override_counterexample :
    mergeValues (.record 0 [("k", .int 1)] [("k", ⟨builtinTypeInt, 0⟩)])
      (.record 1 [("k", .str "s")] []) 2 =
      .err "type error merging record field k" := by
  simp [mergeValues, mergeRecData, mergeY, copyXOnly, alistGet, typeCheck,
    RecData.setField, alistSet, builtinTypeInt, builtinTypeString, Val.typOf]

/-- When the head field of `y` is common, only `x` annotates it with a
non-unit type, `y`'s value passes the check, neither value is a `TypedVal`
and the values are not both records, the step takes `y`'s value with `x`'s
annotation (eval.go lines 1081-1084, 1097-1121). -/
theorem mergeY_step_annotscalar (fx : List (String × Val))
    (ax ay : List (String × FieldAnnotation)) (g : String) (vx vy : Val)
    (a : FieldAnnotation)
    (rest : List (String × Val)) (r : RecData) (ctr : Nat) (r' : RecData) (ctr' : Nat)
    (hx : alistGet g fx = some vx) (hax : alistGet g ax = some a)
    (hay : alistGet g ay = none)
    (htc : typeCheck vy (some a.t) = .ok ())
    (hu : a.t.isUnitTyp = false)
    (htx : vx.isTypedB = false) (hty : vy.isTypedB = false)
    (hrec : ¬(vx.isRecordB = true ∧ vy.isRecordB = true))
    (hok : mergeY fx ax ay ((g, vy) :: rest) r ctr = .ok (r', ctr')) :
    mergeY fx ax ay rest (r.setField g vy (some a)) ctr = .ok (r', ctr') := by
  simp only [mergeY, hx, hax, hay, htc] at hok
  rw [if_neg (by simp [hu])] at hok
  split at hok
  · simp [Val.isTypedB] at htx
  · simp [Val.isTypedB] at hty
  · simp [Val.isRecordB] at hrec
  · exact hok

/-- When the head field of `y` is common, only `x` annotates it with a
unit type, and `y`'s value is a unit passing the check, the step rescales
`y`'s value to `x`'s multiplier (when positive) and stores it with `x`'s
annotation, after the `vx` `TypedVal` check (eval.go lines 1085-1096,
1102-1104, 1121). -/
theorem mergeY_step_annotunit (fx : List (String × Val))
    (ax ay : List (String × FieldAnnotation)) (g : String) (vx : Val)
    (uv uf : ℚ) (ut : Typ) (a : FieldAnnotation)
    (rest : List (String × Val)) (r : RecData) (ctr : Nat) (r' : RecData) (ctr' : Nat)
    (hx : alistGet g fx = some vx) (hax : alistGet g ax = some a)
    (hay : alistGet g ay = none)
    (htc : typeCheck (.unit uv uf ut) (some a.t) = .ok ())
    (hu : a.t.isUnitTyp = true)
    (htx : vx.isTypedB = false)
    (hok : mergeY fx ax ay ((g, .unit uv uf ut) :: rest) r ctr = .ok (r', ctr')) :
    mergeY fx ax ay rest
      (r.setField g (if a.m > 0 then unitWithF uv uf ut a.m else .unit uv uf ut)
        (some a)) ctr = .ok (r', ctr') := by
  simp only [mergeY, hx, hax, hay, htc] at hok
  rw [if_pos hu] at hok
  split at hok
  all_goals first
    | exact hok
    | simp [Val.isTypedB] at htx

/-- When the head field of `y` is common and both values are records, the
step recursively merges them into a fresh record allocated at the current
counter and stores it under the target annotation (eval.go lines
1108-1117); when only `x` annotates the field, the passing type check
forces the annotation to be the (non-unit) record type. -/
theorem mergeY_step_recrec (fx : List (String × Val))
    (ax ay : List (String × FieldAnnotation)) (g : String)
    (pxf : Nat) (fxf2 : List (String × Val)) (axf2 : List (String × FieldAnnotation))
    (pyf : Nat) (fyf2 : List (String × Val)) (ayf2 : List (String × FieldAnnotation))
    (rest : List (String × Val)) (r : RecData) (ctr : Nat) (r' : RecData) (ctr' : Nat)
    (hx : alistGet g fx = some (.record pxf fxf2 axf2))
    (hok : mergeY fx ax ay ((g, .record pyf fyf2 ayf2) :: rest) r ctr
      = .ok (r', ctr')) :
    ∃ sub ctr2,
      mergeRecData fxf2 axf2 fyf2 ayf2 (ctr + 1) = .ok (sub, ctr2) ∧
      mergeY fx ax ay rest
        (r.setField g (.record ctr sub.fields sub.annots)
          (match alistGet g ay with
           | some a2 => some a2
           | none => alistGet g ax)) ctr2 = .ok (r', ctr') := by
  simp only [mergeY, hx] at hok
  cases hax : alistGet g ax with
  | none =>
    simp only [hax] at hok
    cases hrec : mergeY fxf2 axf2 ayf2 fyf2 (copyXOnly fyf2 axf2 fxf2 ⟨[], []⟩)
        (ctr + 1) with
    | ok p =>
      obtain ⟨sub, ctr2⟩ := p
      simp only [hrec] at hok
      refine ⟨sub, ctr2, hrec, ?_⟩
      simpa only [hax] using hok
    | err e =>
      simp only [hrec] at hok
      exact absurd hok (by simp)
    | panic m =>
      simp only [hrec] at hok
      exact absurd hok (by simp)
  | some a =>
    cases hay : alistGet g ay with
    | some a2 =>
      simp only [hax, hay] at hok
      cases hrec : mergeY fxf2 axf2 ayf2 fyf2 (copyXOnly fyf2 axf2 fxf2 ⟨[], []⟩)
          (ctr + 1) with
      | ok p =>
        obtain ⟨sub, ctr2⟩ := p
        simp only [hrec] at hok
        refine ⟨sub, ctr2, hrec, ?_⟩
        simpa only [hay] using hok
      | err e =>
        simp only [hrec] at hok
        exact absurd hok (by simp)
      | panic m =>
        simp only [hrec] at hok
        exact absurd hok (by simp)
    | none =>
      simp only [hax, hay] at hok
      cases htc : typeCheck (.record pyf fyf2 ayf2) (some a.t) with
      | error e =>
        simp only [htc] at hok
        exact absurd hok (by simp)
      | ok u =>
        have ht : a.t = builtinTypeRec := by
          by_cases h : a.t = Val.typOf (.record pyf fyf2 ayf2)
          · exact h
          · simp only [typeCheck, if_neg h] at htc
            exact absurd htc (by simp)
        have hu : a.t.isUnitTyp = false := by rw [ht]; decide
        simp only [htc] at hok
        rw [if_neg (by simp [hu])] at hok
        cases hrec : mergeY fxf2 axf2 ayf2 fyf2 (copyXOnly fyf2 axf2 fxf2 ⟨[], []⟩)
            (ctr + 1) with
        | ok p =>
          obtain ⟨sub, ctr2⟩ := p
          simp only [hrec] at hok
          refine ⟨sub, ctr2, hrec, ?_⟩
          simpa only [hay, hax] using hok
        | err e =>
          simp only [hrec] at hok
          exact absurd hok (by simp)
        | panic m =>
          simp only [hrec] at hok
          exact absurd hok (by simp)

/-- A common field annotated only by `x` with a non-unit type whose `y`
value passes the check (neither value a `TypedVal`, not both records) ends
with `y`'s value under `x`'s annotation. -/
theorem mergeY_annotscalar (fx : List (String × Val))
    (ax ay : List (String × FieldAnnotation)) (f : String) (vx vy : Val)
    (a : FieldAnnotation) :
    ∀ (fyl : List (String × Val)) (r : RecData) (ctr : Nat) (r' : RecData) (ctr' : Nat),
    (fyl.map Prod.fst).Nodup →
    alistGet f fyl = some vy → alistGet f fx = some vx →
    alistGet f ax = some a → alistGet f ay = none →
    typeCheck vy (some a.t) = .ok () → a.t.isUnitTyp = false →
    vx.isTypedB = false → vy.isTypedB = false →
    ¬(vx.isRecordB = true ∧ vy.isRecordB = true) →
    mergeY fx ax ay fyl r ctr = .ok (r', ctr') →
    alistGet f r'.fields = some vy ∧ alistGet f r'.annots = some a := by
  intro fyl
  induction fyl with
  | nil => intro r ctr r' ctr' _ hf _ _ _ _ _ _ _ _ _; simp [alistGet] at hf
  | cons hd rest ih =>
    obtain ⟨g, w⟩ := hd
    intro r ctr r' ctr' hnd hf hx hax hay htc hu htx hty hrec hok
    simp only [List.map_cons, List.nodup_cons] at hnd
    by_cases hg : g = f
    · subst hg
      have hw : w = vy := by simpa [alistGet] using hf
      subst hw
      have hrest : alistGet g rest = none := alistGet_none_of_notmem _ _ hnd.1
      have hstep := mergeY_step_annotscalar fx ax ay g vx w a rest r ctr r' ctr'
        hx hax hay htc hu htx hty hrec hok
      obtain ⟨h1, h2⟩ := mergeY_preserve fx ax ay g rest _ _ _ _ hrest hstep
      exact ⟨h1.trans (by simp [RecData.setField, alistGet_set_self]),
             h2.trans (by simp [RecData.setField, alistGet_set_self])⟩
    · have hfr : alistGet f rest = some vy := by simpa [alistGet, hg] using hf
      obtain ⟨v2, anno, ctr2, hstep⟩ :=
        mergeY_cons_ok_exists fx ax ay g w rest r ctr r' ctr' hok
      exact ih _ _ _ _ hnd.2 hfr hx hax hay htc hu htx hty hrec hstep

/-- A common field annotated only by `x` with a unit type whose `y` value
is a unit passing the check ends with `y`'s value rescaled to `x`'s
multiplier (when positive) under `x`'s annotation, provided `x`'s value is
not a `TypedVal`. -/
theorem mergeY_annotunit (fx : List (String × Val))
    (ax ay : List (String × FieldAnnotation)) (f : String) (vx : Val)
    (uv uf : ℚ) (ut : Typ) (a : FieldAnnotation) :
    ∀ (fyl : List (String × Val)) (r : RecData) (ctr : Nat) (r' : RecData) (ctr' : Nat),
    (fyl.map Prod.fst).Nodup →
    alistGet f fyl = some (.unit uv uf ut) → alistGet f fx = some vx →
    alistGet f ax = some a → alistGet f ay = none →
    typeCheck (.unit uv uf ut) (some a.t) = .ok () → a.t.isUnitTyp = true →
    vx.isTypedB = false →
    mergeY fx ax ay fyl r ctr = .ok (r', ctr') →
    alistGet f r'.fields =
      some (if a.m > 0 then unitWithF uv uf ut a.m else .unit uv uf ut) ∧
    alistGet f r'.annots = some a := by
  intro fyl
  induction fyl with
  | nil => intro r ctr r' ctr' _ hf _ _ _ _ _ _ _; simp [alistGet] at hf
  | cons hd rest ih =>
    obtain ⟨g, w⟩ := hd
    intro r ctr r' ctr' hnd hf hx hax hay htc hu htx hok
    simp only [List.map_cons, List.nodup_cons] at hnd
    by_cases hg : g = f
    · subst hg
      have hw : w = .unit uv uf ut := by simpa [alistGet] using hf
      subst hw
      have hrest : alistGet g rest = none := alistGet_none_of_notmem _ _ hnd.1
      have hstep := mergeY_step_annotunit fx ax ay g vx uv uf ut a rest r ctr r' ctr'
        hx hax hay htc hu htx hok
      obtain ⟨h1, h2⟩ := mergeY_preserve fx ax ay g rest _ _ _ _ hrest hstep
      exact ⟨h1.trans (by simp [RecData.setField, alistGet_set_self]),
             h2.trans (by simp [RecData.setField, alistGet_set_self])⟩
    · have hfr : alistGet f rest = some (.unit uv uf ut) := by
        simpa [alistGet, hg] using hf
      obtain ⟨v2, anno, ctr2, hstep⟩ :=
        mergeY_cons_ok_exists fx ax ay g w rest r ctr r' ctr' hok
      exact ih _ _ _ _ hnd.2 hfr hx hax hay htc hu htx hstep

/-- A common field whose two values are both records ends with a freshly
allocated record holding their recursive merge, under `y`'s annotation,
falling back to `x`'s and then to the seeded record's. -/
theorem mergeY_recrec (fx : List (String × Val))
    (ax ay : List (String × FieldAnnotation)) (f : String)
    (pxf : Nat) (fxf2 : List (String × Val)) (axf2 : List (String × FieldAnnotation))
    (pyf : Nat) (fyf2 : List (String × Val)) (ayf2 : List (String × FieldAnnotation)) :
    ∀ (fyl : List (String × Val)) (r : RecData) (ctr : Nat) (r' : RecData) (ctr' : Nat),
    (fyl.map Prod.fst).Nodup →
    alistGet f fyl = some (.record pyf fyf2 ayf2) →
    alistGet f fx = some (.record pxf fxf2 axf2) →
    mergeY fx ax ay fyl r ctr = .ok (r', ctr') →
    ∃ pr sub ctr2,
      mergeRecData fxf2 axf2 fyf2 ayf2 (pr + 1) = .ok (sub, ctr2) ∧
      alistGet f r'.fields = some (.record pr sub.fields sub.annots) ∧
      alistGet f r'.annots =
        (match alistGet f ay with
         | some a2 => some a2
         | none =>
           match alistGet f ax with
           | some a1 => some a1
           | none => alistGet f r.annots) := by
  intro fyl
  induction fyl with
  | nil => intro r ctr r' ctr' _ hf _ _; simp [alistGet] at hf
  | cons hd rest ih =>
    obtain ⟨g, w⟩ := hd
    intro r ctr r' ctr' hnd hf hx hok
    simp only [List.map_cons, List.nodup_cons] at hnd
    by_cases hg : g = f
    · subst hg
      have hw : w = .record pyf fyf2 ayf2 := by simpa [alistGet] using hf
      subst hw
      have hrest : alistGet g rest = none := alistGet_none_of_notmem _ _ hnd.1
      obtain ⟨sub, ctr2, hrecd, hcont⟩ :=
        mergeY_step_recrec fx ax ay g pxf fxf2 axf2 pyf fyf2 ayf2 rest r ctr r' ctr'
          hx hok
      obtain ⟨h1, h2⟩ := mergeY_preserve fx ax ay g rest _ _ _ _ hrest hcont
      refine ⟨ctr, sub, ctr2, hrecd, h1.trans ?_, h2.trans ?_⟩
      · simp [RecData.setField, alistGet_set_self]
      · cases hay : alistGet g ay with
        | some a2 => simp [RecData.setField, alistGet_set_self]
        | none =>
          cases hax : alistGet g ax with
          | some a1 => simp [RecData.setField, alistGet_set_self]
          | none => simp [RecData.setField]
    · have hfr : alistGet f rest = some (.record pyf fyf2 ayf2) := by
        simpa [alistGet, hg] using hf
      obtain ⟨v2, anno, ctr2, hstep⟩ :=
        mergeY_cons_ok_exists fx ax ay g w rest r ctr r' ctr' hok
      obtain ⟨pr, sub, ctr3, hrecd, h1, h2⟩ := ih _ _ _ _ hnd.2 hfr hx hstep
      refine ⟨pr, sub, ctr3, hrecd, h1, ?_⟩
      rw [h2]
      cases hay : alistGet f ay with
      | some a2 => simp
      | none =>
        cases hax : alistGet f ax with
        | some a1 => simp
        | none => simp [setField_annots_ne _ _ _ _ _ hg]

/-- Claim C3 (amended): `a @ b` requires two records; the merged record
keeps every field of `a` absent from `b` with `a`'s annotation and every
field of `b` absent from `a` with `b`'s annotation.  For a field in both:
when both values are records they merge recursively into a fresh record
(kept under `b`'s annotation, falling back to `a`'s); otherwise `b`'s
value is taken -- with `b`'s annotation when `a` does not annotate the
field, and with `a`'s annotation when only `a` annotates it and `b`'s
value passes the annotated type check (a unit value being rescaled to
`a`'s positive multiplier), provided in the annotated case that `a`'s
value is not a `TypedVal` and in all scalar cases that neither value is a
`TypedVal`.  Collisions violating these provisos (a failing check or a
`TypedVal`) are errors, not right-overrides. -/
theorem mergeValues_claim (px py ctr : Nat)
    (fx fy : List (String × Val)) (ax ay : List (String × FieldAnnotation))
    (hndx : (fx.map Prod.fst).Nodup) (hndy : (fy.map Prod.fst).Nodup) :
    (∀ x : Val, x.isRecordB = false →
      mergeValues x (.record py fy ay) ctr = .err "cannot merge lhs") ∧
    (∀ y : Val, y.isRecordB = false →
      mergeValues (.record px fx ax) y ctr = .err "cannot merge rhs") ∧
    (∀ z ctr2, mergeValues (.record px fx ax) (.record py fy ay) ctr = .ok (z, ctr2) →
      ∃ fr ar, z = .record ctr fr ar ∧
        (∀ f vx, alistGet f fx = some vx → alistGet f fy = none →
          alistGet f fr = some vx ∧ alistGet f ar = alistGet f ax) ∧
        (∀ f vy, alistGet f fy = some vy → alistGet f fx = none →
          alistGet f fr = some vy ∧ alistGet f ar = alistGet f ay) ∧
        (∀ f vx vy, alistGet f fx = some vx → alistGet f fy = some vy →
          alistGet f ax = none → vx.isTypedB = false → vy.isTypedB = false →
          ¬(vx.isRecordB = true ∧ vy.isRecordB = true) →
          alistGet f fr = some vy ∧ alistGet f ar = alistGet f ay) ∧
        (∀ f vx vy a, alistGet f fx = some vx → alistGet f fy = some vy →
          alistGet f ax = some a → alistGet f ay = none →
          typeCheck vy (some a.t) = .ok () → a.t.isUnitTyp = false →
          vx.isTypedB = false → vy.isTypedB = false →
          ¬(vx.isRecordB = true ∧ vy.isRecordB = true) →
          alistGet f fr = some vy ∧ alistGet f ar = some a) ∧
        (∀ f vx uv uf ut a, alistGet f fx = some vx →
          alistGet f fy = some (.unit uv uf ut) →
          alistGet f ax = some a → alistGet f ay = none →
          typeCheck (.unit uv uf ut) (some a.t) = .ok () → a.t.isUnitTyp = true →
          vx.isTypedB = false →
          alistGet f fr =
            some (if a.m > 0 then unitWithF uv uf ut a.m else .unit uv uf ut) ∧
          alistGet f ar = some a) ∧
        (∀ f pxf fxf2 axf2 pyf fyf2 ayf2,
          alistGet f fx = some (.record pxf fxf2 axf2) →
          alistGet f fy = some (.record pyf fyf2 ayf2) →
          ∃ pr sub ctr3,
            mergeRecData fxf2 axf2 fyf2 ayf2 (pr + 1) = .ok (sub, ctr3) ∧
            alistGet f fr = some (.record pr sub.fields sub.annots) ∧
            alistGet f ar =
              (match alistGet f ay with
               | some a2 => some a2
               | none => alistGet f ax))) ∧
    (mergeValues
      (.record 0 [("y", .record 1 [("z", .int 1), ("w", .int 2)] [])] [])
      (.record 2 [("y", .record 3 [("z", .int 0)] [])] []) 4 =
      .ok (.record 4 [("y", .record 5 [("w", .int 2), ("z", .int 0)] [])] [], 6)) := by
  refine ⟨?_, ?_, ?_, ?_⟩
  · intro x hx
    cases x <;> first
      | rfl
      | simp [Val.isRecordB] at hx
  · intro y hy
    cases y <;> first
      | rfl
      | simp [Val.isRecordB] at hy
  · intro z ctr2 hok
    simp only [mergeValues, mergeRecData] at hok
    cases hmr : mergeY fx ax ay fy (copyXOnly fy ax fx ⟨[], []⟩) (ctr + 1) with
    | ok pair =>
      obtain ⟨r0, c0⟩ := pair
      rw [hmr] at hok
      simp only [Res.ok.injEq, Prod.mk.injEq] at hok
      refine ⟨r0.fields, r0.annots, hok.1.symm, ?_, ?_, ?_, ?_, ?_, ?_⟩
      · intro f vx hfx hfy
        obtain ⟨hs1, hs2⟩ :=
          copyXOnly_mem fy ax f vx fx ⟨[], []⟩ hndx hfx hfy
        obtain ⟨hp1, hp2⟩ :=
          mergeY_preserve fx ax ay f fy _ _ _ _ hfy hmr
        constructor
        · rw [hp1, hs1]
        · rw [hp2, hs2]
          cases hax : alistGet f ax <;> simp [alistGet]
      · intro f vy hfy hfx
        obtain ⟨hy1, hy2⟩ :=
          mergeY_yonly fx ax ay f vy fy _ _ _ _ hndy hfy hfx hmr
        refine ⟨hy1, ?_⟩
        rw [hy2]
        obtain ⟨hs1, hs2⟩ :=
          copyXOnly_notmem fy ax f fx ⟨[], []⟩ hfx
        rw [hs2]
        cases hay : alistGet f ay <;> simp [alistGet]
      · intro f vx vy hfx hfy hax htx hty hrec
        obtain ⟨hc1, hc2⟩ :=
          mergeY_common fx ax ay f vx vy fy _ _ _ _ hndy hfy hfx hax htx hty hrec hmr
        refine ⟨hc1, ?_⟩
        rw [hc2]
        obtain ⟨hs1, hs2⟩ :=
          copyXOnly_skip fy ax f vy hfy fx ⟨[], []⟩
        rw [hs2]
        cases hay : alistGet f ay <;> simp [alistGet]
      · intro f vx vy a hfx hfy hax hay htc hu htx hty hrec
        exact mergeY_annotscalar fx ax ay f vx vy a fy _ _ _ _
          hndy hfy hfx hax hay htc hu htx hty hrec hmr
      · intro f vx uv uf ut a hfx hfy hax hay htc hu htx
        exact mergeY_annotunit fx ax ay f vx uv uf ut a fy _ _ _ _
          hndy hfy hfx hax hay htc hu htx hmr
      · intro f pxf fxf2 axf2 pyf fyf2 ayf2 hfx hfy
        obtain ⟨pr, sub, ctr3, hrecd, h1, h2⟩ :=
          mergeY_recrec fx ax ay f pxf fxf2 axf2 pyf fyf2 ayf2 fy _ _ _ _
            hndy hfy hfx hmr
        refine ⟨pr, sub, ctr3, hrecd, h1, ?_⟩
        rw [h2]
        obtain ⟨hs1, hs2⟩ :=
          copyXOnly_skip fy ax f (.record pyf fyf2 ayf2) hfy fx ⟨[], []⟩
        cases hay : alistGet f ay with
        | some a2 => simp
        | none =>
          cases hax : alistGet f ax with
          | some a1 => simp
          | none => simp [hs2, alistGet]
    | err e =>
      rw [hmr] at hok
      exact absurd hok (by simp)
    | panic m =>
      rw [hmr] at hok
      exact absurd hok (by simp)
  · simp [mergeValues, mergeRecData, mergeY, copyXOnly, alistGet,
      RecData.setField, alistSet]

/-- Witness for `mergeValues_claim`: a non-record left operand errors;
`{a: 1, k: 1} @ {k: "s", b: true}` keeps `a`, takes `k` from the right
and adds `b`; `{s::int: 2} @ {s: 3}` right-overrides under the passing
`int` check keeping the annotation; `{u::U*2: 4U} @ {u: 6U}` rescales the
right unit value from multiplier 1 to the annotated multiplier 2; and
`{n: {z: 1, w: 2}} @ {n: {z: 0}}` merges the nested records recursively. -/
theorem mergeValues_claim_witness :
    mergeValues (.int 3) (.record 1 [("k", .str "s"), ("b", .bool true)] []) 2 =
      .err "cannot merge lhs" ∧
    (∃ fr ar ctr2,
      mergeValues (.record 0 [("a", .int 1), ("k", .int 1)] [])
        (.record 1 [("k", .str "s"), ("b", .bool true)] []) 2 =
        .ok (.record 2 fr ar, ctr2) ∧
      alistGet "a" fr = some (.int 1) ∧
      alistGet "k" fr = some (.str "s") ∧
      alistGet "b" fr = some (.bool true)) ∧
    (∃ fr ar ctr2,
      mergeValues (.record 0 [("s", .int 2)] [("s", ⟨builtinTypeInt, 0⟩)])
        (.record 1 [("s", .int 3)] []) 2 = .ok (.record 2 fr ar, ctr2) ∧
      alistGet "s" fr = some (.int 3) ∧
      alistGet "s" ar = some ⟨builtinTypeInt, 0⟩) ∧
    (∃ fr ar ctr2,
      mergeValues
        (.record 0 [("u", .unit 4 1 ⟨"U", [("u", 1)]⟩)]
          [("u", ⟨⟨"U", [("u", 1)]⟩, 2⟩)])
        (.record 1 [("u", .unit 6 1 ⟨"U", [("u", 1)]⟩)] []) 2 =
        .ok (.record 2 fr ar, ctr2) ∧
      alistGet "u" fr = some (.unit 3 2 ⟨"U", [("u", 1)]⟩) ∧
      alistGet "u" ar = some ⟨⟨"U", [("u", 1)]⟩, 2⟩) ∧
    (∃ fr ar ctr2 pr sub ctr3,
      mergeValues
        (.record 0 [("n", .record 10 [("z", .int 1), ("w", .int 2)] [])] [])
        (.record 1 [("n", .record 11 [("z", .int 0)] [])] []) 2 =
        .ok (.record 2 fr ar, ctr2) ∧
      mergeRecData [("z", .int 1), ("w", .int 2)] [] [("z", .int 0)] [] (pr + 1)
        = .ok (sub, ctr3) ∧
      alistGet "n" fr = some (.record pr sub.fields sub.annots)) := by
  have h1 := mergeValues_claim 0 1 2
    [("a", .int 1), ("k", .int 1)] [("k", .str "s"), ("b", .bool true)] [] []
    (by simp) (by simp)
  refine ⟨h1.1 (.int 3) rfl, ?_, ?_, ?_, ?_⟩
  · have hcomp : mergeValues (.record 0 [("a", .int 1), ("k", .int 1)] [])
        (.record 1 [("k", .str "s"), ("b", .bool true)] []) 2 =
        .ok (.record 2 [("a", .int 1), ("k", .str "s"), ("b", .bool true)] [], 3) := by
      simp [mergeValues, mergeRecData, mergeY, copyXOnly, alistGet,
        RecData.setField, alistSet]
    obtain ⟨fr, ar, hz, hA, hB, hC, _, _, _⟩ := h1.2.2.1 _ _ hcomp
    refine ⟨fr, ar, 3, ?_, ?_, ?_, ?_⟩
    · rw [hcomp, hz]
    · exact (hA "a" (.int 1) (by simp [alistGet]) (by simp [alistGet])).1
    · exact (hC "k" (.int 1) (.str "s") (by simp [alistGet]) (by simp [alistGet])
        (by simp [alistGet]) rfl rfl (by simp [Val.isRecordB])).1
    · exact (hB "b" (.bool true) (by simp [alistGet]) (by simp [alistGet])).1
  · have h2 := mergeValues_claim 0 1 2
      [("s", .int 2)] [("s", .int 3)] [("s", ⟨builtinTypeInt, 0⟩)] []
      (by simp) (by simp)
    have hcomp : mergeValues (.record 0 [("s", .int 2)] [("s", ⟨builtinTypeInt, 0⟩)])
        (.record 1 [("s", .int 3)] []) 2 =
        .ok (.record 2 [("s", .int 3)] [("s", ⟨builtinTypeInt, 0⟩)], 3) := by
      simp [mergeValues, mergeRecData, mergeY, copyXOnly, alistGet, typeCheck,
        RecData.setField, alistSet, Typ.isUnitTyp, Val.typOf, builtinTypeInt]
    obtain ⟨fr, ar, hz, _, _, _, hD, _, _⟩ := h2.2.2.1 _ _ hcomp
    have hs := hD "s" (.int 2) (.int 3) ⟨builtinTypeInt, 0⟩ (by simp [alistGet])
      (by simp [alistGet]) (by simp [alistGet]) rfl rfl rfl
      rfl rfl (by simp [Val.isRecordB])
    exact ⟨fr, ar, 3, by rw [hcomp, hz], hs.1, hs.2⟩
  · have h3 := mergeValues_claim 0 1 2
      [("u", .unit 4 1 ⟨"U", [("u", 1)]⟩)] [("u", .unit 6 1 ⟨"U", [("u", 1)]⟩)]
      [("u", ⟨⟨"U", [("u", 1)]⟩, 2⟩)] []
      (by simp) (by simp)
    have hcomp : mergeValues
        (.record 0 [("u", .unit 4 1 ⟨"U", [("u", 1)]⟩)]
          [("u", ⟨⟨"U", [("u", 1)]⟩, 2⟩)])
        (.record 1 [("u", .unit 6 1 ⟨"U", [("u", 1)]⟩)] []) 2 =
        .ok (.record 2 [("u", .unit 3 2 ⟨"U", [("u", 1)]⟩)]
          [("u", ⟨⟨"U", [("u", 1)]⟩, 2⟩)], 3) := by
      norm_num [mergeValues, mergeRecData, mergeY, copyXOnly, alistGet, typeCheck,
        RecData.setField, alistSet, Typ.isUnitTyp, Val.typOf, unitWithF]
    obtain ⟨fr, ar, hz, _, _, _, _, hE, _⟩ := h3.2.2.1 _ _ hcomp
    have hu := hE "u" (.unit 4 1 ⟨"U", [("u", 1)]⟩) 6 1 ⟨"U", [("u", 1)]⟩
      ⟨⟨"U", [("u", 1)]⟩, 2⟩ (by simp [alistGet]) (by simp [alistGet])
      (by simp [alistGet]) rfl rfl rfl rfl
    refine ⟨fr, ar, 3, by rw [hcomp, hz], hu.1.trans ?_, hu.2⟩
    norm_num [unitWithF]
  · have h4 := mergeValues_claim 0 1 2
      [("n", .record 10 [("z", .int 1), ("w", .int 2)] [])]
      [("n", .record 11 [("z", .int 0)] [])] [] []
      (by simp) (by simp)
    have hcomp : mergeValues
        (.record 0 [("n", .record 10 [("z", .int 1), ("w", .int 2)] [])] [])
        (.record 1 [("n", .record 11 [("z", .int 0)] [])] []) 2 =
        .ok (.record 2 [("n", .record 3 [("w", .int 2), ("z", .int 0)] [])] [], 4) := by
      simp [mergeValues, mergeRecData, mergeY, copyXOnly, alistGet,
        RecData.setField, alistSet]
    obtain ⟨fr, ar, hz, _, _, _, _, _, hF⟩ := h4.2.2.1 _ _ hcomp
    obtain ⟨pr, sub, ctr3, hra, hrb, hrc⟩ :=
      hF "n" 10 [("z", .int 1), ("w", .int 2)] [] 11 [("z", .int 0)] []
        (by simp [alistGet]) (by simp [alistGet])
    exact ⟨fr, ar, 4, pr, sub, ctr3, by rw [hcomp, hz], hra, hrb⟩


/-- Model of `path.Dir` restricted to what `cwd` needs: the prefix before
the last slash, `/` for a top-level absolute file, `.` when there is no
slash.  (Go `path.Dir` additionally cleans the result; no statement below
depends on cleaning.)  `goDirAux` returns the prefix before the last
slash when one exists. -/
def goDirAux : GoStr → Option GoStr
  | [] => none
  | c :: rest =>
    match goDirAux rest with
    | some d => some (c :: d)
    | none => if c = '/' then some [] else none

def goDir (s : GoStr) : GoStr :=
  match goDirAux s with
  | some [] => ['/']
  | some d => d
  | none => ['.']

/-- Outcome of reading and parsing a module file, together with the
behaviour of evaluating it: `EvalModule` interacts with the global state
exactly through the `LoadModule` calls that `load(...)` builtins make
during evaluation, so a module's evaluation is abstracted as the ordered
list of module names it loads, followed by success or failure.  `readErr`
models an `os.ReadFile` failure, `parseErr` a `ParseModule` failure. -/
inductive ModSrc where
  | readErr
  | parseErr
  | mod (imports : List GoStr) (evalOk : Bool)

/-- The environment of a load: the filesystem oracle used by `os.Stat`,
the content oracle, and the `KONFIPATH` value. -/
structure LoadEnv where
  stat : GoStr → Bool
  src : GoStr → ModSrc
  konfiPath : Option GoStr

/-- The parts of `globalCtx` that `LoadModule` touches: the module cache
(`modules`, keyed by file name) and the load stack (`filestack`).
(The `FileSet` and type registry are not involved in claim C4.) -/
structure LoadState where
  modules : List GoStr
  filestack : List GoStr
deriving Repr, DecidableEq

inductive LoadErr where
  | notFound
  | loadCycle
  | readFailed
  | parseFailed
  | evalFailed
  | fuelOut
deriving Repr, DecidableEq

inductive LoadRes where
  | okL
  | errL (e : LoadErr)
deriving Repr, DecidableEq

/-- Model of `pushFile` (eval.go lines 206-208). -/
def pushFile (f : GoStr) (s : LoadState) : LoadState :=
  { s with filestack := s.filestack ++ [f] }

/-- Model of `popFile` (eval.go lines 210-215). -/
def popFile (s : LoadState) : LoadState :=
  if s.filestack = [] then s
  else { s with filestack := s.filestack.dropLast }

/-- Model of `storeModule` (eval.go lines 180-182). -/
def storeModule (f : GoStr) (s : LoadState) : LoadState :=
  { s with modules := s.modules ++ [f] }

/-- Model of `cwd` (eval.go lines 219-224): `.` for an empty stack, else
the directory of the file on top. -/
def cwdOf (s : LoadState) : GoStr :=
  match s.filestack.getLast? with
  | none => ['.']
  | some f => goDir f

/-- The loop of `EvalModule` as seen by the global state: run each nested
`LoadModule` in order, stopping at the first failure.  `load1` is the
loader at the current fuel level. -/
def runImports (load1 : GoStr → LoadState → LoadRes × LoadState) :
    List GoStr → LoadState → LoadRes × LoadState
  | [], s => (.okL, s)
  | i :: is, s =>
    match load1 i s with
    | (.okL, s2) => runImports load1 is s2
    | (.errL e, s2) => (.errL e, s2)

/-- Model of `LoadModule` (modules.go lines 24-57): resolve the name, hit
the cache, detect load cycles, read and parse, push the file, evaluate
(here: run the nested loads and the module's own success flag), store the
module on success, and pop the file on every exit from the evaluation
phase (the `defer ctx.popFile()`).  `fuel` bounds the import nesting
depth; the depth of any terminating Go execution bounds it. -/
def LoadModule (env : LoadEnv) : Nat → GoStr → LoadState → LoadRes × LoadState
  | 0, _, s => (.errL .fuelOut, s)
  | fuel + 1, name, s =>
    match fileForModule env.stat env.konfiPath name (cwdOf s) with
    | none => (.errL .notFound, s)
    | some filename =>
      if filename ∈ s.modules then (.okL, s)
      else if filename ∈ s.filestack then (.errL .loadCycle, s)
      else
        match env.src filename with
        | .readErr => (.errL .readFailed, s)
        | .parseErr => (.errL .parseFailed, s)
        | .mod imports evalOk =>
          match runImports (LoadModule env fuel) imports (pushFile filename s) with
          | (.errL e, s2) => (.errL e, popFile s2)
          | (.okL, s2) =>
            if evalOk then (.okL, popFile (storeModule filename s2))
            else (.errL .evalFailed, popFile s2)

end Gokonfi

namespace Gokonfi

theorem popFile_modules (s : LoadState) : (popFile s).modules = s.modules := by
  by_cases h : s.filestack = [] <;> simp [popFile, h]

theorem popFile_concat (s : LoadState) (l : List GoStr) (f : GoStr)
    (h : s.filestack = l ++ [f]) : (popFile s).filestack = l := by
  have hne : s.filestack ≠ [] := by simp [h]
  simp [popFile, hne, h]

theorem runImports_filestack (load1 : GoStr → LoadState → LoadRes × LoadState)
    (h : ∀ n s, ((load1 n s).2).filestack = s.filestack) :
    ∀ (l : List GoStr) (s : LoadState),
    ((runImports load1 l s).2).filestack = s.filestack := by
  intro l
  induction l with
  | nil => intro s; rfl
  | cons i is ih =>
    intro s
    have hs := h i s
    cases hl : load1 i s with
    | mk res s2 =>
      have hs2 : s2.filestack = s.filestack := by rw [hl] at hs; exact hs
      cases res with
      | okL => simp only [runImports, hl]; rw [ih s2, hs2]
      | errL e => simp only [runImports, hl]; exact hs2

theorem LoadModule_filestack (env : LoadEnv) :
    ∀ (fuel : Nat) (name : GoStr) (s : LoadState),
    ((LoadModule env fuel name s).2).filestack = s.filestack := by
  intro fuel
  induction fuel with
  | zero => intro name s; rfl
  | succ fuel ih =>
    intro name s
    simp only [LoadModule]
    split
    · rfl
    next fn hres =>
      split
      · rfl
      split
      · rfl
      split
      · rfl
      · rfl
      next imports evalOk hsrc =>
        have hrun := runImports_filestack (LoadModule env fuel)
          (fun n s => ih n s) imports (pushFile fn s)
        split
        next e s2 hr =>
          rw [hr] at hrun
          exact popFile_concat _ _ _ hrun
        next s2 hr =>
          rw [hr] at hrun
          have hstk : s2.filestack = s.filestack ++ [fn] := hrun
          split
          · exact popFile_concat (storeModule fn s2) s.filestack fn hstk
          · exact popFile_concat _ _ _ hstk

theorem runImports_cache (load1 : GoStr → LoadState → LoadRes × LoadState)
    (hstack : ∀ n s, ((load1 n s).2).filestack = s.filestack)
    (hmono : ∀ n s, ∃ l, ((load1 n s).2).modules = s.modules ++ l)
    (hnew : ∀ n s m, m ∈ ((load1 n s).2).modules →
      m ∈ s.modules ∨ m ∉ s.filestack) :
    ∀ (l : List GoStr) (s : LoadState),
    (∃ l2, ((runImports load1 l s).2).modules = s.modules ++ l2) ∧
    (∀ m, m ∈ ((runImports load1 l s).2).modules →
      m ∈ s.modules ∨ m ∉ s.filestack) := by
  intro l
  induction l with
  | nil =>
    intro s
    exact ⟨⟨[], by simp [runImports]⟩, fun m hm => Or.inl hm⟩
  | cons i is ih =>
    intro s
    cases hl : load1 i s with
    | mk res s2 =>
      have hs2 : s2.filestack = s.filestack := by
        have := hstack i s; rw [hl] at this; exact this
      have hmo : ∃ l1, s2.modules = s.modules ++ l1 := by
        have := hmono i s; rw [hl] at this; exact this
      have hne : ∀ m, m ∈ s2.modules → m ∈ s.modules ∨ m ∉ s.filestack := by
        have := hnew i s; rw [hl] at this; exact this
      cases res with
      | okL =>
        simp only [runImports, hl]
        obtain ⟨⟨l2, hl2⟩, hnew2⟩ := ih s2
        obtain ⟨l1, hl1⟩ := hmo
        constructor
        · exact ⟨l1 ++ l2, by rw [hl2, hl1, List.append_assoc]⟩
        · intro m hm
          rcases hnew2 m hm with hm2 | hm2
          · exact hne m hm2
          · right
            rw [hs2] at hm2
            exact hm2
      | errL e =>
        simp only [runImports, hl]
        exact ⟨hmo, hne⟩

theorem LoadModule_cache (env : LoadEnv) :
    ∀ (fuel : Nat) (name : GoStr) (s : LoadState),
    (∃ l, ((LoadModule env fuel name s).2).modules = s.modules ++ l) ∧
    (∀ m, m ∈ ((LoadModule env fuel name s).2).modules →
      m ∈ s.modules ∨ m ∉ s.filestack) := by
  intro fuel
  induction fuel with
  | zero =>
    intro name s
    exact ⟨⟨[], by simp [LoadModule]⟩, fun m hm => Or.inl hm⟩
  | succ fuel ih =>
    intro name s
    simp only [LoadModule]
    split
    · exact ⟨⟨[], by simp⟩, fun m hm => Or.inl hm⟩
    next fn hres =>
      split
      · exact ⟨⟨[], by simp⟩, fun m hm => Or.inl hm⟩
      next h1 =>
        split
        · exact ⟨⟨[], by simp⟩, fun m hm => Or.inl hm⟩
        next h2 =>
          split
          · exact ⟨⟨[], by simp⟩, fun m hm => Or.inl hm⟩
          · exact ⟨⟨[], by simp⟩, fun m hm => Or.inl hm⟩
          next imports evalOk hsrc =>
            obtain ⟨hm0, hn0⟩ := runImports_cache (LoadModule env fuel)
              (fun n s => LoadModule_filestack env fuel n s)
              (fun n s => (ih n s).1)
              (fun n s m => (ih n s).2 m)
              imports (pushFile fn s)
            split
            next e s2 hr =>
              rw [hr] at hm0 hn0
              obtain ⟨l2, hl2⟩ := (hm0 : ∃ l2, s2.modules = s.modules ++ l2)
              have hnew2 : ∀ m, m ∈ s2.modules →
                  m ∈ s.modules ∨ m ∉ s.filestack ++ [fn] := hn0
              have hstep : ∀ m, m ∈ s2.modules → m ∈ s.modules ∨ m ∉ s.filestack := by
                intro m hm
                rcases hnew2 m hm with hmm | hmm
                · exact Or.inl hmm
                · exact Or.inr (fun hcon => hmm (by simp [hcon]))
              refine ⟨⟨l2, ?_⟩, ?_⟩
              · rw [popFile_modules]; exact hl2
              · intro m hm
                rw [popFile_modules] at hm
                exact hstep m hm
            next s2 hr =>
              rw [hr] at hm0 hn0
              obtain ⟨l2, hl2⟩ := (hm0 : ∃ l2, s2.modules = s.modules ++ l2)
              have hnew2 : ∀ m, m ∈ s2.modules →
                  m ∈ s.modules ∨ m ∉ s.filestack ++ [fn] := hn0
              have hstep : ∀ m, m ∈ s2.modules → m ∈ s.modules ∨ m ∉ s.filestack := by
                intro m hm
                rcases hnew2 m hm with hmm | hmm
                · exact Or.inl hmm
                · exact Or.inr (fun hcon => hmm (by simp [hcon]))
              have hl2b : s2.modules = s.modules ++ l2 := hl2
              split
              · refine ⟨⟨l2 ++ [fn], ?_⟩, ?_⟩
                · rw [popFile_modules]
                  show s2.modules ++ [fn] = _
                  rw [hl2b, List.append_assoc]
                · intro m hm
                  rw [popFile_modules] at hm
                  have hm2 : m ∈ s2.modules ++ [fn] := hm
                  simp only [List.mem_append, List.mem_singleton] at hm2
                  rcases hm2 with hm2 | hm2
                  · exact hstep m hm2
                  · subst hm2
                    exact Or.inr h2
              · refine ⟨⟨l2, ?_⟩, ?_⟩
                · rw [popFile_modules]; exact hl2
                · intro m hm
                  rw [popFile_modules] at hm
                  exact hstep m hm

end Gokonfi

namespace Gokonfi



/-- The requested module's resolved file enters the cache exactly on
success: on an error result it is cached only if it already was, and on
success it is cached. -/
theorem LoadModule_resolved (env : LoadEnv) (fuel : Nat) (name : GoStr)
    (s : LoadState) :
    (∀ e fn, (LoadModule env fuel name s).1 = .errL e →
      fileForModule env.stat env.konfiPath name (cwdOf s) = some fn →
      fn ∈ ((LoadModule env fuel name s).2).modules → fn ∈ s.modules) ∧
    ((LoadModule env fuel name s).1 = .okL →
      ∀ fn, fileForModule env.stat env.konfiPath name (cwdOf s) = some fn →
      fn ∈ ((LoadModule env fuel name s).2).modules) := by
  cases fuel with
  | zero =>
    constructor
    · intro e fn _ _ hin
      exact hin
    · intro hok
      exact absurd hok (by simp [LoadModule])
  | succ fuel =>
    simp only [LoadModule]
    split
    next heq =>
      constructor
      · intro e fn _ hres
        rw [heq] at hres
        exact absurd hres (by simp)
      · intro _ fn hres
        rw [heq] at hres
        exact absurd hres (by simp)
    next fn0 heq =>
      have hfneq : ∀ fn, fileForModule env.stat env.konfiPath name (cwdOf s) = some fn →
          fn = fn0 := by
        intro fn hres
        rw [heq] at hres
        exact (Option.some.injEq _ _ ▸ hres).symm
      split
      next h1 =>
        constructor
        · intro e fn herr
          exact absurd herr (by simp)
        · intro _ fn hres
          rw [hfneq fn hres]
          exact h1
      next h1 =>
        split
        next h2 =>
          constructor
          · intro e fn _ hres hin
            exact hin
          · intro hok
            exact absurd hok (by simp)
        next h2 =>
          split
          next hsrc =>
            constructor
            · intro e fn _ _ hin
              exact hin
            · intro hok
              exact absurd hok (by simp)
          next hsrc =>
            constructor
            · intro e fn _ _ hin
              exact hin
            · intro hok
              exact absurd hok (by simp)
          next imports evalOk hsrc =>
            obtain ⟨hm0, hn0⟩ := runImports_cache (LoadModule env fuel)
              (fun n s => LoadModule_filestack env fuel n s)
              (fun n s => (LoadModule_cache env fuel n s).1)
              (fun n s m => (LoadModule_cache env fuel n s).2 m)
              imports (pushFile fn0 s)
            split
            next e2 s2 hr =>
              rw [hr] at hm0 hn0
              have hn0b : ∀ m, m ∈ s2.modules →
                  m ∈ s.modules ∨ m ∉ s.filestack ++ [fn0] := hn0
              constructor
              · intro e fn _ hres hin
                rw [hfneq fn hres] at hin ⊢
                rw [popFile_modules] at hin
                rcases hn0b fn0 hin with hmm | hmm
                · exact hmm
                · exact absurd (by simp) hmm
              · intro hok
                exact absurd hok (by simp)
            next s2 hr =>
              rw [hr] at hm0 hn0
              split
              next hev =>
                constructor
                · intro e fn herr
                  exact absurd herr (by simp)
                · intro _ fn hres
                  rw [hfneq fn hres]
                  rw [popFile_modules]
                  show fn0 ∈ s2.modules ++ [fn0]
                  exact List.mem_append_right _ (by simp)
              next hev =>
                have hn0b : ∀ m, m ∈ s2.modules →
                    m ∈ s.modules ∨ m ∉ s.filestack ++ [fn0] := hn0
                constructor
                · intro e fn _ hres hin
                  rw [hfneq fn hres] at hin ⊢
                  rw [popFile_modules] at hin
                  rcases hn0b fn0 hin with hmm | hmm
                  · exact hmm
                  · exact absurd (by simp) hmm
                · intro hok
                  exact absurd hok (by simp)

/-- Claim C4 (amended): every `LoadModule` call restores the load stack on
exit (the pop runs on every exit from the evaluation phase, including
failures); the requested module itself enters the cache only after
reading, parsing and evaluation all succeed -- on every failure path its
cache membership is exactly what it was before the call; but a failed
load does not leave the whole cache unchanged: modules successfully
loaded by nested imports during the failed load remain cached. -/
theorem loadModule_atomic (env : LoadEnv) (fuel : Nat) (name : GoStr)
    (s : LoadState) :
    ((LoadModule env fuel name s).2).filestack = s.filestack ∧
    (∀ e fn, (LoadModule env fuel name s).1 = .errL e →
      fileForModule env.stat env.konfiPath name (cwdOf s) = some fn →
      (fn ∈ ((LoadModule env fuel name s).2).modules ↔ fn ∈ s.modules)) ∧
    ((LoadModule env fuel name s).1 = .okL →
      ∀ fn, fileForModule env.stat env.konfiPath name (cwdOf s) = some fn →
      fn ∈ ((LoadModule env fuel name s).2).modules) := by
  refine ⟨LoadModule_filestack env fuel name s, ?_,
    (LoadModule_resolved env fuel name s).2⟩
  intro e fn herr hres
  constructor
  · exact (LoadModule_resolved env fuel name s).1 e fn herr hres
  · intro hin
    obtain ⟨l, hl⟩ := (LoadModule_cache env fuel name s).1
    rw [hl]
    exact List.mem_append_left l hin


/-- A two-module scenario: `A.konfi` loads `B` and then fails evaluation;
`B.konfi` evaluates successfully. -/
def loadEnvAB : LoadEnv :=
  { stat := fun p => p == "./A.konfi".toList || p == "./B.konfi".toList,
    src := fun p =>
      if p == "./A.konfi".toList then .mod ["B".toList] false
      else if p == "./B.konfi".toList then .mod [] true
      else .readErr,
    konfiPath := none }

/-- Claim C4 (counterexample): loading module `A` fails (its evaluation
fails after it loaded `B`), the load stack is restored -- but the module
cache is not unchanged: it now contains `B`. -/
theorem loadModule_failed_cache_changed :
    LoadModule loadEnvAB 3 "A".toList ⟨[], []⟩ =
      (.errL .evalFailed, ⟨["./B.konfi".toList], []⟩) := by
  decide

/-- Witness for `loadModule_atomic` on the `loadEnvAB` scenario: after the
failed load of `A`, the stack is restored and `A`'s resolved file is
cached exactly as before (not at all). -/
theorem loadModule_atomic_witness :
    ((LoadModule loadEnvAB 3 "A".toList ⟨[], []⟩).2).filestack = [] ∧
    ("./A.konfi".toList ∈ ((LoadModule loadEnvAB 3 "A".toList ⟨[], []⟩).2).modules ↔
      "./A.konfi".toList ∈ (⟨[], []⟩ : LoadState).modules) := by
  have h := loadModule_atomic loadEnvAB 3 "A".toList ⟨[], []⟩
  exact ⟨h.1, h.2.1 .evalFailed "./A.konfi".toList (by decide) (by decide)⟩

end Gokonfi

namespace Gokonfi

/-- Model of `unaryMinus` (eval.go lines 707-717). -/
def unaryMinus : Val → Res Val
  | .int u => .ok (.int (-u))
  | .double u => .ok (.double (-u))
  | .unit uv uf ut => .ok (.unit (-uv) uf ut)
  | _ => .err "incompatible type for unary -"

/-- Model of `unaryNot` (eval.go lines 719-721). -/
def unaryNot (x : Val) : Res Val :=
  .ok (.bool (!x.toBool))

inductive UnOp where
  | minus
  | not
deriving Repr, DecidableEq

/-- The binary operator tokens dispatched by `binaryOp`
(eval.go lines 733-765). -/
inductive BinOp where
  | plus
  | minus
  | times
  | div
  | modulo
  | logicalAnd
  | logicalOr
  | equal
  | notEqual
  | lessThan
  | lessEq
  | greaterThan
  | greaterEq
  | merge
deriving Repr, DecidableEq

/-- Model of `unaryOp` (eval.go lines 723-731). -/
def unaryOp (x : Val) (op : UnOp) : Res Val :=
  match op with
  | .minus => unaryMinus x
  | .not => unaryNot x

def liftRes (r : Res Val) (ctr : Nat) : Res (Val × Nat) :=
  match r with
  | .ok v => .ok (v, ctr)
  | .err m => .err m
  | .panic m => .panic m

/-- Model of `binaryOp` (eval.go lines 733-765), with the allocation
counter threaded through for the merge case (`mergeValues` calls
`NewRec`). -/
def binaryOp (x y : Val) (op : BinOp) (ctr : Nat) : Res (Val × Nat) :=
  match op with
  | .plus => liftRes (plus x y) ctr
  | .minus => liftRes (minus x y) ctr
  | .times => liftRes (times x y) ctr
  | .div => liftRes (div x y) ctr
  | .modulo => liftRes (modulo x y) ctr
  | .logicalAnd => liftRes (logicalAnd x y) ctr
  | .logicalOr => liftRes (logicalOr x y) ctr
  | .equal => liftRes (equal x y) ctr
  | .notEqual => liftRes (notEqual x y) ctr
  | .lessThan => liftRes (lessThan x y) ctr
  | .lessEq => liftRes (lessEq x y) ctr
  | .greaterThan => liftRes (greaterThan x y) ctr
  | .greaterEq => liftRes (greaterEq x y) ctr
  | .merge => mergeValues x y ctr

/-- The expression tree (`Expr`, parser.go / eval.go) restricted to the
constructs the cycle-detection and active-set claims exercise: literals,
unary and binary operations, variable references, record expressions with
let-bindings and (unannotated) fields, lists, field access and
conditionals.  `CallExpr`, `FuncExpr` and `TypedExpr` and field type
annotations are outside the fragment settled here. -/
inductive Expr where
  | intLit (n : ℤ)
  | doubleLit (d : ℚ)
  | boolLit (b : Bool)
  | strLit (s : String)
  | nilLit
  | unary (op : UnOp) (x : Expr)
  | binary (op : BinOp) (x y : Expr)
  | varE (name : String)
  | recE (letVars : List (String × Expr)) (fields : List (String × Expr))
  | listE (elems : List Expr)
  | fieldAcc (x : Expr) (name : String)
  | condE (c x y : Expr)
deriving Repr

/-- Model of `lazyVal` (eval.go lines 22-25): an environment cell holds an
unevaluated expression or a fully evaluated value. -/
inductive LazyCell where
  | exprC (e : Expr)
  | valC (v : Val)
deriving Repr

/-- Model of `varCtx` (eval.go lines 34-38): one frame of the lexical
chain, with its lazy-cell environment, the set of names currently under
evaluation, and the parent frame. -/
structure Frame where
  env : List (String × LazyCell)
  active : List String
  parent : Option Nat
deriving Repr

/-- The mutable store of frames reachable from contexts, plus the record
allocation counter.  A `Ctx` is an index into `frames`; `ChildCtx`
appends a new frame whose parent is the current one. -/
structure EvalState where
  frames : List Frame
  nextPtr : Nat
deriving Repr

def getFrame (s : EvalState) (fid : Nat) : Option Frame :=
  s.frames.get? fid

def setFrame (s : EvalState) (fid : Nat) (fr : Frame) : EvalState :=
  { s with frames := s.frames.set fid fr }

/-- Model of `Lookup` (eval.go lines 126-135): walk the frame chain for
the first cell bound to `v`; the auxiliary depth bound covers the chain
length (parent links of reachable states are strictly decreasing). -/
def lookupVarAux (s : EvalState) (v : String) : Nat → Nat → Option (LazyCell × Nat)
  | 0, _ => none
  | k + 1, fid =>
    match getFrame s fid with
    | none => none
    | some fr =>
      match alistGet v fr.env with
      | some cell => some (cell, fid)
      | none =>
        match fr.parent with
        | none => none
        | some p => lookupVarAux s v k p

def lookupVar (s : EvalState) (v : String) (fid : Nat) : Option (LazyCell × Nat) :=
  lookupVarAux s v (s.frames.length + 1) fid

/-- Model of `isActive` (eval.go lines 151-153). -/
def isActiveS (s : EvalState) (fid : Nat) (v : String) : Bool :=
  match getFrame s fid with
  | some fr => fr.active.contains v
  | none => false

/-- Model of `setActive` (eval.go lines 155-157): mark `v` as under
evaluation in its frame (a set insertion). -/
def setActiveS (s : EvalState) (fid : Nat) (v : String) : EvalState :=
  match getFrame s fid with
  | none => s
  | some fr =>
    setFrame s fid { fr with
      active := if fr.active.contains v then fr.active else fr.active ++ [v] }

/-- Model of `store` (eval.go lines 170-174): store the evaluated value
and remove `v` from the active set. -/
def storeS (s : EvalState) (fid : Nat) (v : String) (val : Val) : EvalState :=
  match getFrame s fid with
  | none => s
  | some fr =>
    setFrame s fid { fr with
      env := alistSet v (.valC val) fr.env,
      active := fr.active.erase v }

/-- Model of `fullyEvaluated` (eval.go lines 161-168). -/
def fullyEvaluatedS (s : EvalState) (fid : Nat) (v : String) : Option Val :=
  match getFrame s fid with
  | none => none
  | some fr =>
    match alistGet v fr.env with
    | some (.valC val) => some val
    | _ => none

inductive EvalErr where
  | unbound (name : String)
  | cyclic
  | opErr (msg : String)
  | goPanic (msg : String)
  | noField (name : String)
  | cannotAccess (name : String)
  | outOfFuel
deriving Repr, DecidableEq

/-- The per-frame environment seeding of `evalRec` (eval.go lines
904-910): `storeExpr` every let variable, then every field (map writes,
so a later write to the same name overwrites). -/
def seedEnv (ps : List (String × Expr)) (init : List (String × LazyCell)) :
    List (String × LazyCell) :=
  ps.foldl (fun acc p => alistSet p.1 (LazyCell.exprC p.2) acc) init

end Gokonfi

namespace Gokonfi

/-- The let-variable loop of `evalRec` (eval.go lines 912-922): skip the
cells already forced by cross-references, otherwise mark active, evaluate
with the evaluator one fuel level down, and store. -/
def evalLetVars (ev : Expr → Nat → EvalState → (Except EvalErr Val) × EvalState)
    (fid : Nat) : List (String × Expr) → EvalState →
    (Except EvalErr Unit) × EvalState
  | [], s => (.ok (), s)
  | (n, e) :: rest, s =>
    match fullyEvaluatedS s fid n with
    | some _ => evalLetVars ev fid rest s
    | none =>
      let s1 := setActiveS s fid n
      match ev e fid s1 with
      | (.ok v, s2) => evalLetVars ev fid rest (storeS s2 fid n v)
      | (.error err, s2) => (.error err, s2)

/-- The field loop of `evalRec` (eval.go lines 923-965), without type
annotations: collect the evaluated fields in declaration order, reusing
cells already forced by cross-references. -/
def evalFields (ev : Expr → Nat → EvalState → (Except EvalErr Val) × EvalState)
    (fid : Nat) : List (String × Expr) → EvalState →
    (Except EvalErr (List (String × Val))) × EvalState
  | [], s => (.ok [], s)
  | (n, e) :: rest, s =>
    match fullyEvaluatedS s fid n with
    | some v =>
      match evalFields ev fid rest s with
      | (.ok fvs, s2) => (.ok ((n, v) :: fvs), s2)
      | (.error err, s2) => (.error err, s2)
    | none =>
      let s1 := setActiveS s fid n
      match ev e fid s1 with
      | (.ok v, s2) =>
        match evalFields ev fid rest (storeS s2 fid n v) with
        | (.ok fvs, s3) => (.ok ((n, v) :: fvs), s3)
        | (.error err, s3) => (.error err, s3)
      | (.error err, s2) => (.error err, s2)

/-- The element loop of the `ListExpr` case of `Eval`
(eval.go lines 827-836). -/
def evalElems (ev : Expr → Nat → EvalState → (Except EvalErr Val) × EvalState)
    (fid : Nat) : List Expr → EvalState → (Except EvalErr (List Val)) × EvalState
  | [], s => (.ok [], s)
  | e :: rest, s =>
    match ev e fid s with
    | (.ok v, s2) =>
      match evalElems ev fid rest s2 with
      | (.ok vs, s3) => (.ok (v :: vs), s3)
      | (.error err, s3) => (.error err, s3)
    | (.error err, s2) => (.error err, s2)

/-- Model of `Eval` (eval.go lines 767-900) over the embedded fragment,
with `evalRec` (lines 902-967) inlined in the record case.  `fuel` bounds
the recursion depth (each recursive `Eval` call in Go descends one level);
the Go function has no such bound and can diverge, which surfaces here as
`outOfFuel`.  State is threaded through error results because the Go code
mutates frames in place: an error does not undo `setActive` marks. -/
def eval : Nat → Expr → Nat → EvalState → (Except EvalErr Val) × EvalState
  | 0, _, _, s => (.error .outOfFuel, s)
  | fuel + 1, expr, fid, s =>
    match expr with
    | .intLit n => (.ok (.int n), s)
    | .doubleLit d => (.ok (.double d), s)
    | .boolLit b => (.ok (.bool b), s)
    | .strLit str => (.ok (.str str), s)
    | .nilLit => (.ok .nil, s)
    | .unary op x =>
      match eval fuel x fid s with
      | (.ok xv, s1) =>
        match unaryOp xv op with
        | .ok v => (.ok v, s1)
        | .err m => (.error (.opErr m), s1)
        | .panic m => (.error (.goPanic m), s1)
      | (.error err, s1) => (.error err, s1)
    | .binary op x y =>
      match eval fuel x fid s with
      | (.ok xv, s1) =>
        match eval fuel y fid s1 with
        | (.ok yv, s2) =>
          match binaryOp xv yv op s2.nextPtr with
          | .ok (v, ctr) => (.ok v, { s2 with nextPtr := ctr })
          | .err m => (.error (.opErr m), s2)
          | .panic m => (.error (.goPanic m), s2)
        | (.error err, s2) => (.error err, s2)
      | (.error err, s1) => (.error err, s1)
    | .varE name =>
      match lookupVar s name fid with
      | none => (.error (.unbound name), s)
      | some (.valC v, _) => (.ok v, s)
      | some (.exprC ex, vfid) =>
        if isActiveS s vfid name then (.error .cyclic, s)
        else
          let s1 := setActiveS s vfid name
          match eval fuel ex vfid s1 with
          | (.ok v, s2) => (.ok v, storeS s2 vfid name v)
          | (.error err, s2) => (.error err, s2)
    | .recE letVars fields =>
      let fid2 := s.frames.length
      let s1 : EvalState :=
        { s with frames := s.frames ++
            [⟨seedEnv fields (seedEnv letVars []), [], some fid⟩] }
      match evalLetVars (eval fuel) fid2 letVars s1 with
      | (.error err, s2) => (.error err, s2)
      | (.ok _, s2) =>
        let ptr := s2.nextPtr
        let s3 : EvalState := { s2 with nextPtr := ptr + 1 }
        match evalFields (eval fuel) fid2 fields s3 with
        | (.error err, s4) => (.error err, s4)
        | (.ok fvs, s4) => (.ok (.record ptr fvs []), s4)
    | .listE elems =>
      match evalElems (eval fuel) fid elems s with
      | (.ok vs, s2) => (.ok (.list vs), s2)
      | (.error err, s2) => (.error err, s2)
    | .fieldAcc x name =>
      match eval fuel x fid s with
      | (.ok xv, s1) =>
        match xv with
        | .record _ flds _ =>
          match alistGet name flds with
          | some v => (.ok v, s1)
          | none => (.error (.noField name), s1)
        | .typed inner _ =>
          match inner with
          | .record _ flds _ =>
            match alistGet name flds with
            | some v => (.ok v, s1)
            | none => (.error (.noField name), s1)
          | _ => (.error (.noField name), s1)
        | _ => (.error (.cannotAccess name), s1)
      | (.error err, s1) => (.error err, s1)
    | .condE c x y =>
      match eval fuel c fid s with
      | (.ok cv, s1) =>
        if cv.toBool then eval fuel x fid s1 else eval fuel y fid s1
      | (.error err, s1) => (.error err, s1)

/-- Evaluation of a top-level expression in a fresh root context (an
empty global frame; the builtin bindings are irrelevant to the claims
settled here). -/
def evalTop (fuel : Nat) (e : Expr) : (Except EvalErr Val) × EvalState :=
  eval fuel e 0 ⟨[⟨[], [], none⟩], 0⟩

end Gokonfi

namespace Gokonfi

mutual

/-- Whether variable `n` occurs (as a `VarExpr`) anywhere in the
expression. -/
def occursVar (n : String) : Expr → Bool
  | .intLit _ => false
  | .doubleLit _ => false
  | .boolLit _ => false
  | .strLit _ => false
  | .nilLit => false
  | .varE m => m == n
  | .unary _ x => occursVar n x
  | .binary _ x y => occursVar n x || occursVar n y
  | .recE lvs fs => occursVarPairs n lvs || occursVarPairs n fs
  | .listE es => occursVarList n es
  | .fieldAcc x _ => occursVar n x
  | .condE c x y => occursVar n c || occursVar n x || occursVar n y

def occursVarList (n : String) : List Expr → Bool
  | [] => false
  | e :: es => occursVar n e || occursVarList n es

def occursVarPairs (n : String) : List (String × Expr) → Bool
  | [] => false
  | (_, e) :: ps => occursVar n e || occursVarPairs n ps

end

def selfRefPairs : List (String × Expr) → Bool
  | [] => false
  | (n, e) :: ps => occursVar n e || selfRefPairs ps

mutual

/-- Whether some record subexpression has a let-binding or field whose
own expression mentions the bound name -- the directly self-referential
programs, the simplest case of "a let-binding or record field that
transitively references itself". -/
def hasSelfRef : Expr → Bool
  | .intLit _ => false
  | .doubleLit _ => false
  | .boolLit _ => false
  | .strLit _ => false
  | .nilLit => false
  | .varE _ => false
  | .unary _ x => hasSelfRef x
  | .binary _ x y => hasSelfRef x || hasSelfRef y
  | .recE lvs fs =>
    selfRefPairs lvs || selfRefPairs fs || hasSelfRefPairs lvs || hasSelfRefPairs fs
  | .listE es => hasSelfRefList es
  | .fieldAcc x _ => hasSelfRef x
  | .condE c x y => hasSelfRef c || hasSelfRef x || hasSelfRef y

def hasSelfRefList : List Expr → Bool
  | [] => false
  | e :: es => hasSelfRef e || hasSelfRefList es

def hasSelfRefPairs : List (String × Expr) → Bool
  | [] => false
  | (_, e) :: ps => hasSelfRef e || hasSelfRefPairs ps

end

/-- The program `{a: if true then 0 else {b: b}.b}`: its inner record
field `b` references itself. -/
def selfRefUnforced : Expr :=
  .recE [] [("a", .condE (.boolLit true) (.intLit 0)
    (.fieldAcc (.recE [] [("b", .varE "b")]) "b"))]

end Gokonfi

namespace Gokonfi

/-- Claim C1 (counterexample): the program
`{a: if true then 0 else {b: b}.b}` contains a record field (`b`) that
references itself, yet evaluation succeeds with `{a: 0}` -- the
self-referential cell sits in the unchosen conditional branch and is
never forced, so no "cyclic variable dependencies detected" error is
raised. -/
theorem cycle_detection_counterexample :
    hasSelfRef selfRefUnforced = true ∧
    (evalTop 10 selfRefUnforced).1 = .ok (.record 0 [("a", .int 0)] []) := by
  exact ⟨rfl, rfl⟩

/-- The program `{a: b, b: 1 + true}`: forcing `a` forces `b`, whose
expression fails with a type error. -/
def activeLeakProgram : Expr :=
  .recE [] [("a", .varE "b"), ("b", .binary .plus (.intLit 1) (.boolLit true))]

/-- Claim C6 (counterexample): when the evaluation of a forced cell
fails, the error propagates out of `Eval`/`evalRec` without removing the
names from the frame's active set: after the failing evaluation of
`{a: b, b: 1 + true}`, both `a` and `b` are still marked active in the
record frame.  Only `store` (reached on success) deletes the mark. -/
theorem error_leaves_cells_active :
    (evalTop 10 activeLeakProgram).1 = .error (.opErr "incompatible types for +") ∧
    ((evalTop 10 activeLeakProgram).2).frames.get? 1 =
      some ⟨[("a", .exprC (.varE "b")),
             ("b", .exprC (.binary .plus (.intLit 1) (.boolLit true)))],
            ["a", "b"], some 0⟩ := by
  exact ⟨rfl, rfl⟩

end Gokonfi


namespace Gokonfi

/-- The active set of frame `i` (empty for indices without a frame). -/
def activeOf (s : EvalState) (i : Nat) : List String :=
  match s.frames.get? i with
  | some fr => fr.active
  | none => []

theorem activeOf_nextPtr (s : EvalState) (c : Nat) (i : Nat) :
    activeOf { s with nextPtr := c } i = activeOf s i := rfl

theorem activeOf_setFrame_ne (s : EvalState) (fid : Nat) (fr : Frame) (i : Nat)
    (h : fid ≠ i) : activeOf (setFrame s fid fr) i = activeOf s i := by
  unfold activeOf setFrame
  rw [show (s.frames.set fid fr).get? i = s.frames.get? i by
    simp [List.getElem?_set_ne h]]

theorem activeOf_setFrame_eq (s : EvalState) (fid : Nat) (fr : Frame)
    (h : fid < s.frames.length) :
    activeOf (setFrame s fid fr) fid = fr.active := by
  unfold activeOf setFrame
  rw [show (s.frames.set fid fr).get? fid = some fr by
    simp [List.getElem?_set_eq_of_lt _ h]]

theorem getFrame_lt (s : EvalState) (fid : Nat) (fr : Frame)
    (h : getFrame s fid = some fr) : fid < s.frames.length := by
  by_contra hge
  rw [getFrame, List.get?_eq_none.mpr (by omega)] at h
  exact Option.noConfusion h

theorem activeOf_of_getFrame (s : EvalState) (fid : Nat) (fr : Frame)
    (h : getFrame s fid = some fr) : activeOf s fid = fr.active := by
  unfold activeOf
  unfold getFrame at h
  rw [h]

theorem activeOf_of_getFrame_none (s : EvalState) (fid : Nat)
    (h : getFrame s fid = none) : activeOf s fid = [] := by
  unfold activeOf
  unfold getFrame at h
  rw [h]

theorem setActiveS_none (s : EvalState) (fid : Nat) (n : String)
    (h : getFrame s fid = none) : setActiveS s fid n = s := by
  unfold setActiveS
  rw [h]

theorem setActiveS_some (s : EvalState) (fid : Nat) (n : String) (fr : Frame)
    (h : getFrame s fid = some fr) :
    setActiveS s fid n = setFrame s fid { fr with
      active := if fr.active.contains n then fr.active else fr.active ++ [n] } := by
  unfold setActiveS
  rw [h]

theorem storeS_none (s : EvalState) (fid : Nat) (n : String) (v : Val)
    (h : getFrame s fid = none) : storeS s fid n v = s := by
  unfold storeS
  rw [h]

theorem storeS_some (s : EvalState) (fid : Nat) (n : String) (v : Val) (fr : Frame)
    (h : getFrame s fid = some fr) :
    storeS s fid n v = setFrame s fid { fr with
      env := alistSet n (.valC v) fr.env, active := fr.active.erase n } := by
  unfold storeS
  rw [h]

theorem mem_activeOf_setActive (s : EvalState) (fid : Nat) (n : String)
    (i : Nat) (m : String) (hm : m ∈ activeOf (setActiveS s fid n) i) :
    m ∈ activeOf s i ∨ (i = fid ∧ m = n) := by
  cases hfr : getFrame s fid with
  | none => rw [setActiveS_none _ _ _ hfr] at hm; exact Or.inl hm
  | some fr =>
    rw [setActiveS_some _ _ _ _ hfr] at hm
    by_cases hif : fid = i
    · subst hif
      rw [activeOf_setFrame_eq _ _ _ (getFrame_lt s fid fr hfr)] at hm
      rw [activeOf_of_getFrame _ _ _ hfr]
      by_cases hc : fr.active.contains n = true
      · rw [if_pos hc] at hm
        exact Or.inl hm
      · rw [if_neg hc] at hm
        rcases List.mem_append.mp hm with h | h
        · exact Or.inl h
        · exact Or.inr ⟨rfl, List.mem_singleton.mp h⟩
    · rw [activeOf_setFrame_ne _ _ _ _ hif] at hm
      exact Or.inl hm

theorem nodup_activeOf_setActive (s : EvalState) (fid : Nat) (n : String)
    (hnd : ∀ i, (activeOf s i).Nodup) (i : Nat) :
    (activeOf (setActiveS s fid n) i).Nodup := by
  cases hfr : getFrame s fid with
  | none => rw [setActiveS_none _ _ _ hfr]; exact hnd i
  | some fr =>
    rw [setActiveS_some _ _ _ _ hfr]
    by_cases hif : fid = i
    · subst hif
      rw [activeOf_setFrame_eq _ _ _ (getFrame_lt s fid fr hfr)]
      have hact := activeOf_of_getFrame _ _ _ hfr
      have hndf := hnd fid
      rw [hact] at hndf
      by_cases hc : fr.active.contains n = true
      · rw [if_pos hc]
        exact hndf
      · rw [if_neg hc]
        have hn : n ∉ fr.active := fun hmem => hc (List.elem_iff.mpr hmem)
        simp [List.nodup_append, hn, hndf]
    · rw [activeOf_setFrame_ne _ _ _ _ hif]
      exact hnd i

theorem mem_activeOf_store (s : EvalState) (fid : Nat) (n : String) (v : Val)
    (i : Nat) (m : String) (hm : m ∈ activeOf (storeS s fid n v) i) :
    m ∈ activeOf s i := by
  cases hfr : getFrame s fid with
  | none => rw [storeS_none _ _ _ _ hfr] at hm; exact hm
  | some fr =>
    rw [storeS_some _ _ _ _ _ hfr] at hm
    by_cases hif : fid = i
    · subst hif
      rw [activeOf_setFrame_eq _ _ _ (getFrame_lt s fid fr hfr)] at hm
      rw [activeOf_of_getFrame _ _ _ hfr]
      exact List.mem_of_mem_erase hm
    · rw [activeOf_setFrame_ne _ _ _ _ hif] at hm
      exact hm

theorem notmem_activeOf_store_self (s : EvalState) (fid : Nat) (n : String)
    (v : Val) (hnd : (activeOf s fid).Nodup) :
    n ∉ activeOf (storeS s fid n v) fid := by
  cases hfr : getFrame s fid with
  | none =>
    rw [storeS_none _ _ _ _ hfr, activeOf_of_getFrame_none _ _ hfr]
    simp
  | some fr =>
    rw [storeS_some _ _ _ _ _ hfr,
      activeOf_setFrame_eq _ _ _ (getFrame_lt s fid fr hfr)]
    intro hmem
    rw [activeOf_of_getFrame _ _ _ hfr] at hnd
    exact ((List.Nodup.mem_erase_iff hnd).mp hmem).1 rfl

theorem nodup_activeOf_store (s : EvalState) (fid : Nat) (n : String) (v : Val)
    (hnd : ∀ i, (activeOf s i).Nodup) (i : Nat) :
    (activeOf (storeS s fid n v) i).Nodup := by
  cases hfr : getFrame s fid with
  | none => rw [storeS_none _ _ _ _ hfr]; exact hnd i
  | some fr =>
    rw [storeS_some _ _ _ _ _ hfr]
    by_cases hif : fid = i
    · subst hif
      rw [activeOf_setFrame_eq _ _ _ (getFrame_lt s fid fr hfr)]
      have hndf := hnd fid
      rw [activeOf_of_getFrame _ _ _ hfr] at hndf
      exact List.Nodup.erase n hndf
    · rw [activeOf_setFrame_ne _ _ _ _ hif]
      exact hnd i

theorem mem_activeOf_pushFrame (s : EvalState) (env0 : List (String × LazyCell))
    (p : Option Nat) (i : Nat) (m : String)
    (hm : m ∈ activeOf { s with frames := s.frames ++ [⟨env0, [], p⟩] } i) :
    m ∈ activeOf s i := by
  unfold activeOf at hm ⊢
  by_cases hlt : i < s.frames.length
  · rw [List.get?_append hlt] at hm
    exact hm
  · rw [List.get?_append_right (by omega)] at hm
    by_cases heq : i - s.frames.length = 0
    · rw [heq] at hm
      simp at hm
    · rw [List.get?_eq_none.mpr (by simp; omega)] at hm
      simp at hm

theorem nodup_activeOf_pushFrame (s : EvalState) (env0 : List (String × LazyCell))
    (p : Option Nat) (hnd : ∀ i, (activeOf s i).Nodup) (i : Nat) :
    (activeOf { s with frames := s.frames ++ [⟨env0, [], p⟩] } i).Nodup := by
  unfold activeOf
  by_cases hlt : i < s.frames.length
  · rw [List.get?_append hlt]
    have := hnd i
    unfold activeOf at this
    exact this
  · rw [List.get?_append_right (by omega)]
    by_cases heq : i - s.frames.length = 0
    · rw [heq]
      simp
    · rw [List.get?_eq_none.mpr (by simp; omega)]
      simp

end Gokonfi

namespace Gokonfi

/-- The active-set discipline of an evaluator: a successful evaluation
keeps every active set duplicate-free and never adds a name to any
frame's active set (net of its own balanced `setActive`/`store` pairs). -/
def ActiveOK (ev : Expr → Nat → EvalState → (Except EvalErr Val) × EvalState) : Prop :=
  ∀ e fid s v s', ev e fid s = (.ok v, s') → (∀ i, (activeOf s i).Nodup) →
    (∀ i, (activeOf s' i).Nodup) ∧ (∀ i m, m ∈ activeOf s' i → m ∈ activeOf s i)

/-- One balanced `setActive`/evaluate/`store` step of forcing a cell. -/
theorem force_step_active (ev : Expr → Nat → EvalState → (Except EvalErr Val) × EvalState)
    (hev : ActiveOK ev) (fid : Nat) (n : String) (e : Expr) (s : EvalState)
    (v : Val) (s2 : EvalState)
    (hok : ev e fid (setActiveS s fid n) = (.ok v, s2))
    (hnd : ∀ i, (activeOf s i).Nodup) :
    (∀ i, (activeOf (storeS s2 fid n v) i).Nodup) ∧
    (∀ i m, m ∈ activeOf (storeS s2 fid n v) i → m ∈ activeOf s i) := by
  have hnd1 : ∀ i, (activeOf (setActiveS s fid n) i).Nodup :=
    nodup_activeOf_setActive s fid n hnd
  obtain ⟨hnd2, hsub2⟩ := hev e fid (setActiveS s fid n) v s2 hok hnd1
  refine ⟨nodup_activeOf_store s2 fid n v hnd2, ?_⟩
  intro i m hm
  have hm2 := mem_activeOf_store s2 fid n v i m hm
  have hm1 := hsub2 i m hm2
  rcases mem_activeOf_setActive s fid n i m hm1 with hmm | ⟨hi, hmn⟩
  · exact hmm
  · rw [hi] at hm
    rw [hmn] at hm
    exact absurd hm (notmem_activeOf_store_self s2 fid n v (hnd2 fid))

theorem evalLetVars_active (ev : Expr → Nat → EvalState → (Except EvalErr Val) × EvalState)
    (hev : ActiveOK ev) (fid : Nat) :
    ∀ (lvs : List (String × Expr)) (s : EvalState) (u : Unit) (s' : EvalState),
    evalLetVars ev fid lvs s = (.ok u, s') → (∀ i, (activeOf s i).Nodup) →
    (∀ i, (activeOf s' i).Nodup) ∧ (∀ i m, m ∈ activeOf s' i → m ∈ activeOf s i) := by
  intro lvs
  induction lvs with
  | nil =>
    intro s u s' hok hnd
    simp only [evalLetVars, Prod.mk.injEq] at hok
    rw [← hok.2]
    exact ⟨hnd, fun i m hm => hm⟩
  | cons hd rest ih =>
    obtain ⟨n, e⟩ := hd
    intro s u s' hok hnd
    simp only [evalLetVars] at hok
    cases hfe : fullyEvaluatedS s fid n with
    | some w =>
      rw [hfe] at hok
      exact ih s u s' hok hnd
    | none =>
      rw [hfe] at hok
      cases hev2 : ev e fid (setActiveS s fid n) with
      | mk r s2 =>
        cases r with
        | error err => simp only [hev2] at hok; exact absurd hok (by simp)
        | ok v =>
          simp only [hev2] at hok
          obtain ⟨hndS, hsubS⟩ :=
            force_step_active ev hev fid n e s v s2 hev2 hnd
          obtain ⟨hnd3, hsub3⟩ := ih (storeS s2 fid n v) u s' hok hndS
          exact ⟨hnd3, fun i m hm => hsubS i m (hsub3 i m hm)⟩

theorem evalFields_active (ev : Expr → Nat → EvalState → (Except EvalErr Val) × EvalState)
    (hev : ActiveOK ev) (fid : Nat) :
    ∀ (fs : List (String × Expr)) (s : EvalState) (fvs : List (String × Val))
      (s' : EvalState),
    evalFields ev fid fs s = (.ok fvs, s') → (∀ i, (activeOf s i).Nodup) →
    (∀ i, (activeOf s' i).Nodup) ∧ (∀ i m, m ∈ activeOf s' i → m ∈ activeOf s i) := by
  intro fs
  induction fs with
  | nil =>
    intro s fvs s' hok hnd
    simp only [evalFields, Prod.mk.injEq] at hok
    rw [← hok.2]
    exact ⟨hnd, fun i m hm => hm⟩
  | cons hd rest ih =>
    obtain ⟨n, e⟩ := hd
    intro s fvs s' hok hnd
    simp only [evalFields] at hok
    cases hfe : fullyEvaluatedS s fid n with
    | some w =>
      rw [hfe] at hok
      cases hrec : evalFields ev fid rest s with
      | mk r s2 =>
        cases r with
        | error err => simp only [hrec] at hok; exact absurd hok (by simp)
        | ok fvs2 =>
          simp only [hrec] at hok
          have hs' : s2 = s' := by
            simpa using congrArg Prod.snd hok
          rw [← hs']
          exact ih s fvs2 s2 hrec hnd
    | none =>
      rw [hfe] at hok
      cases hev2 : ev e fid (setActiveS s fid n) with
      | mk r s2 =>
        cases r with
        | error err => simp only [hev2] at hok; exact absurd hok (by simp)
        | ok v =>
          simp only [hev2] at hok
          cases hrec : evalFields ev fid rest (storeS s2 fid n v) with
          | mk r2 s3 =>
            cases r2 with
            | error err => simp only [hrec] at hok; exact absurd hok (by simp)
            | ok fvs2 =>
              simp only [hrec] at hok
              have hs' : s3 = s' := by
                simpa using congrArg Prod.snd hok
              rw [← hs']
              obtain ⟨hndS, hsubS⟩ :=
                force_step_active ev hev fid n e s v s2 hev2 hnd
              obtain ⟨hnd3, hsub3⟩ := ih (storeS s2 fid n v) fvs2 s3 hrec hndS
              exact ⟨hnd3, fun i m hm => hsubS i m (hsub3 i m hm)⟩

theorem evalElems_active (ev : Expr → Nat → EvalState → (Except EvalErr Val) × EvalState)
    (hev : ActiveOK ev) (fid : Nat) :
    ∀ (es : List Expr) (s : EvalState) (vs : List Val) (s' : EvalState),
    evalElems ev fid es s = (.ok vs, s') → (∀ i, (activeOf s i).Nodup) →
    (∀ i, (activeOf s' i).Nodup) ∧ (∀ i m, m ∈ activeOf s' i → m ∈ activeOf s i) := by
  intro es
  induction es with
  | nil =>
    intro s vs s' hok hnd
    simp only [evalElems, Prod.mk.injEq] at hok
    rw [← hok.2]
    exact ⟨hnd, fun i m hm => hm⟩
  | cons e rest ih =>
    intro s vs s' hok hnd
    simp only [evalElems] at hok
    cases hev2 : ev e fid s with
    | mk r s2 =>
      cases r with
      | error err => simp only [hev2] at hok; exact absurd hok (by simp)
      | ok v =>
        simp only [hev2] at hok
        cases hrec : evalElems ev fid rest s2 with
        | mk r2 s3 =>
          cases r2 with
          | error err => simp only [hrec] at hok; exact absurd hok (by simp)
          | ok vs2 =>
            simp only [hrec] at hok
            have hs' : s3 = s' := by
              simpa using congrArg Prod.snd hok
            rw [← hs']
            obtain ⟨hnd2, hsub2⟩ := hev e fid s v s2 hev2 hnd
            obtain ⟨hnd3, hsub3⟩ := ih s2 vs2 s3 hrec hnd2
            exact ⟨hnd3, fun i m hm => hsub2 i m (hsub3 i m hm)⟩

end Gokonfi

namespace Gokonfi

/-- Successful evaluation maintains the active-set discipline at every
fuel level. -/
theorem eval_active (fuel : Nat) : ActiveOK (eval fuel) := by
  induction fuel with
  | zero =>
    intro e fid s v s' hok hnd
    exact absurd hok (by simp [eval])
  | succ fuel ih =>
    intro e fid s v s' hok hnd
    cases e with
    | intLit n =>
      simp only [eval, Prod.mk.injEq] at hok
      rw [← hok.2]
      exact ⟨hnd, fun i m hm => hm⟩
    | doubleLit d =>
      simp only [eval, Prod.mk.injEq] at hok
      rw [← hok.2]
      exact ⟨hnd, fun i m hm => hm⟩
    | boolLit b =>
      simp only [eval, Prod.mk.injEq] at hok
      rw [← hok.2]
      exact ⟨hnd, fun i m hm => hm⟩
    | strLit str =>
      simp only [eval, Prod.mk.injEq] at hok
      rw [← hok.2]
      exact ⟨hnd, fun i m hm => hm⟩
    | nilLit =>
      simp only [eval, Prod.mk.injEq] at hok
      rw [← hok.2]
      exact ⟨hnd, fun i m hm => hm⟩
    | unary op x =>
      simp only [eval] at hok
      cases hx : eval fuel x fid s with
      | mk r s1 =>
        cases r with
        | error err => simp only [hx] at hok; exact absurd hok (by simp)
        | ok xv =>
          simp only [hx] at hok
          obtain ⟨hnd1, hsub1⟩ := ih x fid s xv s1 hx hnd
          cases hu : unaryOp xv op with
          | ok w =>
            simp only [hu, Prod.mk.injEq] at hok
            rw [← hok.2]
            exact ⟨hnd1, hsub1⟩
          | err m => simp only [hu] at hok; exact absurd hok (by simp)
          | panic m => simp only [hu] at hok; exact absurd hok (by simp)
    | binary op x y =>
      simp only [eval] at hok
      cases hx : eval fuel x fid s with
      | mk r s1 =>
        cases r with
        | error err => simp only [hx] at hok; exact absurd hok (by simp)
        | ok xv =>
          simp only [hx] at hok
          obtain ⟨hnd1, hsub1⟩ := ih x fid s xv s1 hx hnd
          cases hy : eval fuel y fid s1 with
          | mk r2 s2 =>
            cases r2 with
            | error err => simp only [hy] at hok; exact absurd hok (by simp)
            | ok yv =>
              simp only [hy] at hok
              obtain ⟨hnd2, hsub2⟩ := ih y fid s1 yv s2 hy hnd1
              cases hb : binaryOp xv yv op s2.nextPtr with
              | ok p =>
                obtain ⟨w, ctr⟩ := p
                simp only [hb, Prod.mk.injEq] at hok
                rw [← hok.2]
                exact ⟨fun i => hnd2 i, fun i m hm => hsub1 i m (hsub2 i m hm)⟩
              | err m => simp only [hb] at hok; exact absurd hok (by simp)
              | panic m => simp only [hb] at hok; exact absurd hok (by simp)
    | varE name =>
      simp only [eval] at hok
      cases hlk : lookupVar s name fid with
      | none => simp only [hlk] at hok; exact absurd hok (by simp)
      | some p =>
        obtain ⟨cell, vfid⟩ := p
        cases cell with
        | valC w =>
          simp only [hlk, Prod.mk.injEq] at hok
          rw [← hok.2]
          exact ⟨hnd, fun i m hm => hm⟩
        | exprC ex =>
          simp only [hlk] at hok
          by_cases hact : isActiveS s vfid name = true
          · rw [if_pos hact] at hok
            exact absurd hok (by simp)
          · rw [if_neg hact] at hok
            cases hforce : eval fuel ex vfid (setActiveS s vfid name) with
            | mk r s2 =>
              cases r with
              | error err => simp only [hforce] at hok; exact absurd hok (by simp)
              | ok w =>
                simp only [hforce, Prod.mk.injEq] at hok
                rw [← hok.2]
                exact force_step_active (eval fuel) ih vfid name ex s w s2 hforce hnd
    | recE letVars fields =>
      simp only [eval] at hok
      cases hlv : evalLetVars (eval fuel) s.frames.length letVars
          { s with frames := s.frames ++
              [⟨seedEnv fields (seedEnv letVars []), [], some fid⟩] } with
      | mk r s2 =>
        cases r with
        | error err => simp only [hlv] at hok; exact absurd hok (by simp)
        | ok u =>
          simp only [hlv] at hok
          have hnd1 : ∀ i, (activeOf { s with frames := s.frames ++
              [⟨seedEnv fields (seedEnv letVars []), [], some fid⟩] } i).Nodup :=
            nodup_activeOf_pushFrame s _ _ hnd
          obtain ⟨hnd2, hsub2⟩ :=
            evalLetVars_active (eval fuel) ih s.frames.length letVars _ u s2 hlv hnd1
          cases hf : evalFields (eval fuel) s.frames.length fields
              { s2 with nextPtr := s2.nextPtr + 1 } with
          | mk r2 s4 =>
            cases r2 with
            | error err => simp only [hf] at hok; exact absurd hok (by simp)
            | ok fvs =>
              simp only [hf, Prod.mk.injEq] at hok
              rw [← hok.2]
              have hnd3 : ∀ i, (activeOf { s2 with nextPtr := s2.nextPtr + 1 } i).Nodup :=
                fun i => hnd2 i
              obtain ⟨hnd4, hsub4⟩ :=
                evalFields_active (eval fuel) ih s.frames.length fields _ fvs s4 hf hnd3
              refine ⟨hnd4, ?_⟩
              intro i m hm
              exact mem_activeOf_pushFrame s _ _ i m (hsub2 i m (hsub4 i m hm))
    | listE elems =>
      simp only [eval] at hok
      cases hes : evalElems (eval fuel) fid elems s with
      | mk r s2 =>
        cases r with
        | error err => simp only [hes] at hok; exact absurd hok (by simp)
        | ok vs =>
          simp only [hes, Prod.mk.injEq] at hok
          rw [← hok.2]
          exact evalElems_active (eval fuel) ih fid elems s vs s2 hes hnd
    | fieldAcc x name =>
      simp only [eval] at hok
      cases hx : eval fuel x fid s with
      | mk r s1 =>
        cases r with
        | error err => simp only [hx] at hok; exact absurd hok (by simp)
        | ok xv =>
          simp only [hx] at hok
          obtain ⟨hnd1, hsub1⟩ := ih x fid s xv s1 hx hnd
          split at hok
          all_goals repeat' split at hok
          all_goals
            simp only [Prod.mk.injEq] at hok
          all_goals rw [← hok.2]
          all_goals exact ⟨hnd1, hsub1⟩
    | condE c x y =>
      simp only [eval] at hok
      cases hc : eval fuel c fid s with
      | mk r s1 =>
        cases r with
        | error err => simp only [hc] at hok; exact absurd hok (by simp)
        | ok cv =>
          simp only [hc] at hok
          obtain ⟨hnd1, hsub1⟩ := ih c fid s cv s1 hc hnd
          by_cases hcb : cv.toBool = true
          · rw [if_pos hcb] at hok
            obtain ⟨hnd2, hsub2⟩ := ih x fid s1 v s' hok hnd1
            exact ⟨hnd2, fun i m hm => hsub1 i m (hsub2 i m hm)⟩
          · rw [if_neg hcb] at hok
            obtain ⟨hnd2, hsub2⟩ := ih y fid s1 v s' hok hnd1
            exact ⟨hnd2, fun i m hm => hsub1 i m (hsub2 i m hm)⟩

end Gokonfi

namespace Gokonfi

/-- Claim C6 (amended): on successful evaluation no lazy cell is left in
the active state -- every `setActive` is balanced by the `store` that
removes the name, so active sets never gain a name across a successful
`Eval`, and evaluating a whole program from a fresh context ends with
every frame's active set empty.  On error paths, however, the names stay
marked active (see the counterexample); this is unobservable because
errors abort the evaluation and the frames are discarded. -/
theorem eval_ok_no_active_claim (fuel : Nat) (e : Expr) :
    (∀ fid s v s', eval fuel e fid s = (.ok v, s') →
      (∀ i, (activeOf s i).Nodup) →
      (∀ i, (activeOf s' i).Nodup) ∧
      (∀ i n, n ∈ activeOf s' i → n ∈ activeOf s i)) ∧
    (∀ v s', evalTop fuel e = (.ok v, s') → ∀ i, activeOf s' i = []) := by
  constructor
  · intro fid s v s' hok hnd
    exact eval_active fuel e fid s v s' hok hnd
  · intro v s' hok i
    have hinit : ∀ j, activeOf (⟨[⟨[], [], none⟩], 0⟩ : EvalState) j = [] := by
      intro j
      cases j with
      | zero => rfl
      | succ j => rfl
    have hnd : ∀ j, (activeOf (⟨[⟨[], [], none⟩], 0⟩ : EvalState) j).Nodup := by
      intro j
      rw [hinit j]
      exact List.nodup_nil
    obtain ⟨_, hsub⟩ := eval_active fuel e 0 _ v s' hok hnd
    rw [List.eq_nil_iff_forall_not_mem]
    intro n hn
    have := hsub i n hn
    rw [hinit i] at this
    exact List.not_mem_nil n this

/-- Witness for `eval_ok_no_active_claim`: after successfully evaluating
`{a: 1}`, the record frame's active set is empty. -/
theorem eval_ok_no_active_claim_witness :
    (evalTop 5 (.recE [] [("a", .intLit 1)])).1 =
      .ok (.record 0 [("a", .int 1)] []) ∧
    activeOf (evalTop 5 (.recE [] [("a", .intLit 1)])).2 1 = [] := by
  have hcomp : evalTop 5 (.recE [] [("a", .intLit 1)]) =
      ((.ok (.record 0 [("a", .int 1)] [])),
        (evalTop 5 (.recE [] [("a", .intLit 1)])).2) := by
    rfl
  constructor
  · rfl
  · exact (eval_ok_no_active_claim 5 (.recE [] [("a", .intLit 1)])).2 _ _ hcomp 1

end Gokonfi

namespace Gokonfi

/-- A name not among the seeded keys keeps its prior binding (the map
writes of `storeExpr` touch only the written keys). -/
theorem seedEnv_get_notmem (ps : List (String × Expr))
    (init : List (String × LazyCell)) (n : String)
    (h : n ∉ ps.map Prod.fst) :
    alistGet n (seedEnv ps init) = alistGet n init := by
  induction ps generalizing init with
  | nil => rfl
  | cons p rest ih =>
    simp only [List.map_cons, List.mem_cons] at h
    push_neg at h
    have : seedEnv (p :: rest) init
        = seedEnv rest (alistSet p.1 (.exprC p.2) init) := rfl
    rw [this, ih _ h.2, alistGet_set_ne _ _ _ _ (fun he => h.1 he.symm)]

theorem c1_clause1 (n : String) (rest : List (String × Expr)) (fuel : Nat)
    (h : n ∉ rest.map Prod.fst) :
    (evalTop (fuel + 2) (.recE [] ((n, .varE n) :: rest))).1
      = .error .cyclic := by
  have hseed : alistGet n (seedEnv ((n, .varE n) :: rest) (seedEnv [] []))
      = some (.exprC (.varE n)) := by
    have : seedEnv ((n, .varE n) :: rest) (seedEnv [] [])
        = seedEnv rest (alistSet n (.exprC (.varE n)) []) := rfl
    rw [this, seedEnv_get_notmem rest _ n h, alistGet_set_self]
  simp only [evalTop, eval, evalLetVars, evalFields, fullyEvaluatedS,
    getFrame, setActiveS, setFrame, isActiveS, lookupVar, lookupVarAux,
    List.get?, List.length_append, List.length_cons, List.length_nil,
    List.length_set, hseed, List.contains_nil, List.set]
  simp [hseed, List.contains_cons]


theorem c1_clause2 (a b : String) (rest : List (String × Expr)) (fuel : Nat)
    (hab : a ≠ b) (ha : a ∉ rest.map Prod.fst) (hb : b ∉ rest.map Prod.fst) :
    (evalTop (fuel + 3) (.recE [] ((a, .varE b) :: (b, .varE a) :: rest))).1
      = .error .cyclic := by
  have hseedA : alistGet a
      (seedEnv ((a, .varE b) :: (b, .varE a) :: rest) (seedEnv [] []))
      = some (.exprC (.varE b)) := by
    have : seedEnv ((a, .varE b) :: (b, .varE a) :: rest) (seedEnv [] [])
        = seedEnv rest (alistSet b (.exprC (.varE a))
            (alistSet a (.exprC (.varE b)) [])) := rfl
    rw [this, seedEnv_get_notmem rest _ a ha,
      alistGet_set_ne _ _ _ _ (Ne.symm hab), alistGet_set_self]
  have hseedB : alistGet b
      (seedEnv ((a, .varE b) :: (b, .varE a) :: rest) (seedEnv [] []))
      = some (.exprC (.varE a)) := by
    have : seedEnv ((a, .varE b) :: (b, .varE a) :: rest) (seedEnv [] [])
        = seedEnv rest (alistSet b (.exprC (.varE a))
            (alistSet a (.exprC (.varE b)) [])) := rfl
    rw [this, seedEnv_get_notmem rest _ b hb, alistGet_set_self]
  simp only [evalTop, eval, evalLetVars, evalFields, fullyEvaluatedS,
    getFrame, setActiveS, setFrame, isActiveS, lookupVar, lookupVarAux,
    List.get?, List.length_append, List.length_cons, List.length_nil,
    List.length_set, hseedA, hseedB, List.contains_nil, List.set]
  simp [hseedA, hseedB, List.contains_cons, hab, Ne.symm hab]

theorem c1_clause3 (k1 k2 : String) (v : ℤ) (fuel : Nat) (h : k1 ≠ k2) :
    (evalTop (fuel + 3) (.recE [] [(k1, .intLit v), (k2, .varE k1)])).1
      = .ok (.record 0 [(k1, .int v), (k2, .int v)] []) := by
  simp [evalTop, eval, evalLetVars, evalFields, fullyEvaluatedS, getFrame,
    setActiveS, setFrame, isActiveS, lookupVar, lookupVarAux, storeS,
    seedEnv, alistGet, alistSet, h, Ne.symm h, List.set, List.get?]

end Gokonfi

namespace Gokonfi

/-- Claim C1 (amended): cycle detection is keyed to forcing, not to
syntactic self-reference.  Sound on forced cycles: a record whose first
field directly references itself, and a record opening with a mutual
two-cycle, fail with the cyclic error whatever the remaining fields;
forced acyclic references succeed (a field reading an earlier field gets
its stored value, no cyclic error).  But the completeness half of the
original claim fails: a self-referencing cell that is never forced (here,
in an untaken conditional branch) evaluates without any error. -/
theorem cycle_detection_claim :
    (∀ (n : String) (rest : List (String × Expr)) (fuel : Nat),
        n ∉ rest.map Prod.fst →
        (evalTop (fuel + 2) (.recE [] ((n, .varE n) :: rest))).1
          = .error .cyclic) ∧
    (∀ (a b : String) (rest : List (String × Expr)) (fuel : Nat),
        a ≠ b → a ∉ rest.map Prod.fst → b ∉ rest.map Prod.fst →
        (evalTop (fuel + 3)
            (.recE [] ((a, .varE b) :: (b, .varE a) :: rest))).1
          = .error .cyclic) ∧
    (∀ (k1 k2 : String) (v : ℤ) (fuel : Nat), k1 ≠ k2 →
        (evalTop (fuel + 3) (.recE [] [(k1, .intLit v), (k2, .varE k1)])).1
          = .ok (.record 0 [(k1, .int v), (k2, .int v)] [])) ∧
    (hasSelfRef selfRefUnforced = true ∧
        (evalTop 10 selfRefUnforced).1 = .ok (.record 0 [("a", .int 0)] [])) := by
  refine ⟨c1_clause1, c1_clause2, c1_clause3, rfl, rfl⟩

/-- Witness for `cycle_detection_claim`: the three quantified families at
concrete programs -- `{x: x}` and `{p: q, q: p}` are cyclic errors,
`{u: 7, w: u}` evaluates to the expected record. -/
theorem cycle_detection_claim_witness :
    (evalTop 2 (.recE [] [("x", .varE "x")])).1 = .error .cyclic ∧
    (evalTop 3 (.recE [] [("p", .varE "q"), ("q", .varE "p")])).1
      = .error .cyclic ∧
    (evalTop 3 (.recE [] [("u", .intLit 7), ("w", .varE "u")])).1
      = .ok (.record 0 [("u", .int 7), ("w", .int 7)] []) :=
  ⟨cycle_detection_claim.1 "x" [] 0 (by simp),
   cycle_detection_claim.2.1 "p" "q" [] 0 (by decide) (by simp) (by simp),
   cycle_detection_claim.2.2.1 "u" "w" 7 0 (by decide)⟩

end Gokonfi
